import Mathlib

/-!
Verification of the command-execution interception core
(src/sudo-main/src/sudo_intercept.c and src/sudo-main/src/exec_preload.c).

C strings are modelled as `List Char` (one `Char` per byte, no embedded NUL),
environments as `List (List Char)` (the NULL terminator of a `char **` array is
implicit).  Machine pointers are modelled where pointer identity is observable:
a `Str`/`Arr` pairs a numeric address with the pointed-to value, and `free` is
recorded as an event on the address.  The build configuration embedded here is
the plain Linux one of the source: `RTLD_PRELOAD_VAR = "LD_PRELOAD"`,
`RTLD_PRELOAD_DELIM = ':'`, no `RTLD_PRELOAD_ENABLE_VAR` (so `dso_enabled` is
the constant `true`), no `_PATH_ASAN_LIB` and no `RTLD_PRELOAD_DEFAULT`.
-/

namespace SudoIntercept

/-! ## Platform constants (errno values and limits of the Linux target) -/

def ENOENT : Nat := 2
def ENOEXEC : Nat := 8
def ENOMEM : Nat := 12
def EACCES : Nat := 13
def ENOTDIR : Nat := 20
def ENAMETOOLONG : Nat := 36
def ELOOP : Nat := 40
def INT_MAX : Nat := 2147483647
def PATH_MAX : Nat := 4096

/-- The characters of the string `"PATH="`. -/
def pathVar : List Char := ['P', 'A', 'T', 'H', '=']

/-- The characters of `RTLD_PRELOAD_VAR "="`, i.e. `"LD_PRELOAD="`. -/
def preVar : List Char := ['L', 'D', '_', 'P', 'R', 'E', 'L', 'O', 'A', 'D', '=']

/-- The characters of `"SUDO_INTERCEPT_FD="`. -/
def fdVar : List Char :=
  ['S', 'U', 'D', 'O', '_', 'I', 'N', 'T', 'E', 'R', 'C', 'E', 'P', 'T', '_', 'F', 'D', '=']

/-- Modelled from the spec: `_PATH_SUDO_BSHELL` (pathnames.h is not under src/),
the system shell executed by the ENOEXEC fallback. -/
def sudoBshell : List Char := ['/', 'b', 'i', 'n', '/', 's', 'h']

/-- The literal `"sh"` installed as `shargv[0]` by the ENOEXEC fallback. -/
def shName : List Char := ['s', 'h']

/-! ## Path resolver (`resolve_path`, sudo_intercept.c lines 67-125) -/

/-- Outcome of a `stat` call: success, or failure with the errno it set. -/
inductive StatRes where
  | ok : StatRes
  | err : Nat → StatRes
deriving DecidableEq

instance (priority := low) exceptDecEq {ε α : Type} [DecidableEq ε] [DecidableEq α] :
    DecidableEq (Except ε α) := fun x y =>
  match x, y with
  | .error a, .error b =>
    if h : a = b then isTrue (by rw [h]) else isFalse (by simp [h])
  | .ok a, .ok b =>
    if h : a = b then isTrue (by rw [h]) else isFalse (by simp [h])
  | .error _, .ok _ => isFalse (fun h => Except.noConfusion h)
  | .ok _, .error _ => isFalse (fun h => Except.noConfusion h)

/-- The PATH components visited by the loop at lines 88-122: everything up to the
next `':'` (or the end), the cursor then advancing past the colon.  A trailing
`':'` leaves `cp = endp`, so no trailing empty component is visited. -/
def pathCompsGo (acc : List Char) : List Char → List (List Char)
  | [] => if acc.isEmpty then [] else [acc.reverse]
  | c :: cs => if c = ':' then acc.reverse :: pathCompsGo [] cs else pathCompsGo (c :: acc) cs

def pathComps (s : List Char) : List (List Char) := pathCompsGo [] s

/-- The candidate formed at lines 91-96: `"./cmnd"` for an empty component,
`"dir/cmnd"` otherwise.  Its length is the value `snprintf` returns. -/
def candPath (dir cmnd : List Char) : List Char :=
  if dir = [] then '.' :: '/' :: cmnd else dir ++ '/' :: cmnd

/-- The loop of `resolve_path` (lines 88-122) over the remaining PATH components,
with `errval` the error remembered so far (initially `ENOENT`, line 71). -/
def resolveLoop (stat : List Char → StatRes) (cmnd : List Char) (outSize : Nat) :
    List (List Char) → Nat → Except Nat (List Char)
  | [], errval => .error errval
  | dir :: rest, errval =>
    let path := candPath dir cmnd
    if PATH_MAX ≤ path.length then
      resolveLoop stat cmnd outSize rest ENAMETOOLONG
    else
      match stat path with
      | .ok =>
        if outSize ≤ path.length then .error ENAMETOOLONG else .ok path
      | .err e =>
        if e = EACCES then resolveLoop stat cmnd outSize rest EACCES
        else if e = ELOOP ∨ e = ENOTDIR ∨ e = ENOENT then
          resolveLoop stat cmnd outSize rest errval
        else .error e

/-- Lines 76-85: scan the live environment for the first `PATH=` entry and take
its value; absence fails with `ENOENT`. -/
def findPATH (environ : List (List Char)) : Option (List Char) :=
  (environ.find? (fun e => pathVar.isPrefixOf e)).map (fun e => e.drop pathVar.length)

/-- `resolve_path(cmnd, out_cmnd, out_size)` of sudo_intercept.c, returning the
resolved path or the errno it sets. -/
def resolve_path (environ : List (List Char)) (stat : List Char → StatRes)
    (cmnd : List Char) (outSize : Nat) : Except Nat (List Char) :=
  match findPATH environ with
  | none => .error ENOENT
  | some pv => resolveLoop stat cmnd outSize (pathComps pv) ENOENT

/-- The error remembered by a completed scan (`errval` after the loop): a
too-long candidate records `ENAMETOOLONG`, a permission-denied `stat` records
`EACCES`, each later record overwriting the earlier one. -/
def scanErr (stat : List Char → StatRes) (cmnd : List Char)
    (comps : List (List Char)) (errval : Nat) : Nat :=
  comps.foldl
    (fun ev dir =>
      if PATH_MAX ≤ (candPath dir cmnd).length then ENAMETOOLONG
      else
        match stat (candPath dir cmnd) with
        | .ok => ev
        | .err e => if e = EACCES then EACCES else ev)
    errval

/-! ## Exec gatekeeper (`exec_wrapper`, sudo_intercept.c lines 127-191)

Pointer identity matters for the ownership comparisons at lines 183-188, so a
string/array object carries a numeric address besides its value.  The policy
oracle `command_allowed` (declared line 59, implemented outside this core) and
the real `execve` found at lines 148-154 are capabilities.  A real exec that
succeeds replaces the process image and never returns, modelled by `none`; a
returning exec yields the errno it set. -/

/-- A `const char *` object: address and pointed-to characters. -/
structure Str where
  id : Nat
  val : List Char
deriving DecidableEq

/-- A `char *const []` object: address and pointed-to NUL-terminated vector
(the terminator is implicit in the list). -/
structure Arr where
  id : Nat
  val : List (List Char)
deriving DecidableEq

/-- Observable events of one `exec_wrapper` call. -/
inductive Ev where
  | oracleQ : List Char → List (List Char) → List (List Char) → Ev
  | realX : List Char → List (Option (List Char)) → List (List Char) → Ev
  | allocSh : Ev
  | freeSh : Ev
  | freeStr : Nat → Ev
  | freeArr : Nat → Ev
deriving DecidableEq

def Ev.isRealX : Ev → Bool
  | .realX _ _ _ => true
  | _ => false

def Ev.isOracleQ : Ev → Bool
  | .oracleQ _ _ _ => true
  | _ => false

def Ev.isFree : Ev → Bool
  | .freeStr _ => true
  | .freeArr _ => true
  | _ => false

/-- Result of an intercepted exec call: the process image was replaced (the call
never returns), or the call returns `rv` with the errno left set, together with
the event trace. -/
inductive XRes where
  | replaced : List Ev → XRes
  | ret : Int → Nat → List Ev → XRes
deriving DecidableEq

def XRes.trace : XRes → List Ev
  | .replaced tr => tr
  | .ret _ _ tr => tr

/-- The capabilities `exec_wrapper` draws on: the live environment `environ`
(an object, since its address is what `execve` passes along), `stat`, whether
the real-exec symbol resolved (lines 148-158), the policy oracle (`none` means
denial; on approval the written-back `ncmnd`/`nargv`/`nenvp` objects), the real
exec implementation, whether the `shargv` allocation at line 171 succeeds, and
the address of the stack buffer `cmnd_buf`. -/
structure Caps where
  environ : Arr
  stat : List Char → StatRes
  fnAvail : Bool
  oracle : List Char → List (List Char) → List (List Char) → Option (Str × Arr × Arr)
  realExec : List Char → List (Option (List Char)) → List (List Char) → Option Nat
  shAllocOk : Bool
  bufId : Nat

/-- A list viewed as the NUL-terminated C vector it is stored as. -/
def ntArr (l : List (List Char)) : List (Option (List Char)) :=
  l.map some ++ [none]

/-- The `argc` pointers `memcpy(shargv + 2, nargv + 1, argc * sizeof(char *))`
copies (line 176): slots 1 … argc of the vector `nargv` points to.  Reads past
that vector's storage are undefined behaviour in C; `fallbackInBounds` states
when they do not occur. -/
def fallbackCopied (argc : Nat) (nargv : List (List Char)) : List (Option (List Char)) :=
  ((ntArr nargv).drop 1).take argc

/-- The `memcpy` reads slots 1 … argc of `nargv`'s storage, which holds
`nargv.length + 1` slots (terminator included). -/
def fallbackInBounds (argc : Nat) (nargv : List (List Char)) : Prop :=
  argc + 1 ≤ (ntArr nargv).length

/-- The copied region contains a NUL slot, so the `shargv` vector handed to the
shell exec is terminated within its `argc + 2` slots. -/
def fallbackNullTerm (argc : Nat) (nargv : List (List Char)) : Prop :=
  none ∈ fallbackCopied argc nargv

instance fallbackInBoundsDec (argc : Nat) (nargv : List (List Char)) :
    Decidable (fallbackInBounds argc nargv) := by
  unfold fallbackInBounds
  infer_instance

instance fallbackNullTermDec (argc : Nat) (nargv : List (List Char)) :
    Decidable (fallbackNullTerm argc nargv) := by
  unfold fallbackNullTerm
  infer_instance

/-- The shell argument vector built at lines 174-176:
`shargv[0] = "sh"`, `shargv[1] = ncmnd`, then the copied slots. -/
def shSlots (argc : Nat) (ncmnd : List Char) (nargv : List (List Char)) :
    List (Option (List Char)) :=
  some shName :: some ncmnd :: fallbackCopied argc nargv

/-- The release block at lines 183-188: each oracle-returned object is freed
exactly when its address differs from the corresponding current local
(`cmnd` possibly rebound to `cmnd_buf`, `argv`, `envp`). -/
def freesEv (cmnd : Str) (argv envp : Arr) (nc : Str) (na ne : Arr) : List Ev :=
  (if nc.id ≠ cmnd.id then [Ev.freeStr nc.id] else [])
    ++ (if na.id ≠ argv.id then [Ev.freeArr na.id] else [])
    ++ (if ne.id ≠ envp.id then [Ev.freeArr ne.id] else [])

/-- Lines 160-190 after the oracle approved with `nc`/`na`/`ne`: the real exec,
the ENOEXEC shell fallback for PATH-searching variants (note `argc` is counted
from the original `argv`, line 169, while entries come from `nargv + 1`,
line 176), and the release block.  A failed `shargv` allocation returns `-1`
directly (lines 172-173), skipping the release block. -/
def afterAllow (C : Caps) (cmnd2 : Str) (argv envp : Arr) (is_execvp : Bool)
    (nc : Str) (na ne : Arr) : XRes :=
  match C.realExec nc.val (ntArr na.val) ne.val with
  | none => .replaced [Ev.oracleQ cmnd2.val argv.val envp.val,
      Ev.realX nc.val (ntArr na.val) ne.val]
  | some e1 =>
    if e1 = ENOEXEC ∧ is_execvp = true then
      if C.shAllocOk = false then
        .ret (-1) ENOMEM [Ev.oracleQ cmnd2.val argv.val envp.val,
          Ev.realX nc.val (ntArr na.val) ne.val]
      else
        match C.realExec sudoBshell (shSlots argv.val.length nc.val na.val) ne.val with
        | none => .replaced ([Ev.oracleQ cmnd2.val argv.val envp.val,
            Ev.realX nc.val (ntArr na.val) ne.val]
            ++ [Ev.allocSh,
                Ev.realX sudoBshell (shSlots argv.val.length nc.val na.val) ne.val])
        | some e2 =>
          .ret (-1) e2 ([Ev.oracleQ cmnd2.val argv.val envp.val,
              Ev.realX nc.val (ntArr na.val) ne.val]
            ++ [Ev.allocSh,
                Ev.realX sudoBshell (shSlots argv.val.length nc.val na.val) ne.val,
                Ev.freeSh]
            ++ freesEv cmnd2 argv envp nc na ne)
    else
      .ret (-1) e1 ([Ev.oracleQ cmnd2.val argv.val envp.val,
          Ev.realX nc.val (ntArr na.val) ne.val] ++ freesEv cmnd2 argv envp nc na ne)

/-- Lines 148-190 from the symbol lookup on: unavailable symbol fails with
`EACCES`; a denying oracle leaves the locals NULL (their frees are no-ops) and
fails with `EACCES` (line 181). -/
def gatekeeper (C : Caps) (cmnd2 : Str) (argv envp : Arr) (is_execvp : Bool) : XRes :=
  if C.fnAvail = false then .ret (-1) EACCES []
  else
    match C.oracle cmnd2.val argv.val envp.val with
    | none => .ret (-1) EACCES [Ev.oracleQ cmnd2.val argv.val envp.val]
    | some (nc, na, ne) => afterAllow C cmnd2 argv envp is_execvp nc na ne

/-- `exec_wrapper` (lines 127-191): the PATH check of lines 136-146, then the
gatekeeper.  A resolved command is rebound to the stack buffer `cmnd_buf`. -/
def exec_wrapper (C : Caps) (cmnd : Str) (argv envp : Arr) (is_execvp : Bool) : XRes :=
  if cmnd.val.contains '/' = false ∧ is_execvp = false then .ret (-1) ENOENT []
  else if cmnd.val.contains '/' = true then gatekeeper C cmnd argv envp is_execvp
  else
    match resolve_path C.environ.val C.stat cmnd.val PATH_MAX with
    | .error e => .ret (-1) e []
    | .ok p => gatekeeper C ⟨C.bufId, p⟩ argv envp is_execvp

/-- The replacement `execve` (lines 335-339): it hands `environ` — not its
`envp` parameter — to `exec_wrapper`, with PATH search disabled. -/
def execve (C : Caps) (cmnd : Str) (argv envp : Arr) : XRes :=
  exec_wrapper C cmnd argv C.environ false

/-! ## Preload environment builder (`sudo_preload_dso`, exec_preload.c lines 39-211)

Entries are `KEY=VALUE` character lists.  Allocation success of the three
allocation sites (`nenvp` at line 141, `preload` at lines 155-165, `fdstr` at
line 187) is injected as three booleans so failure paths are expressible.  The
result records, besides the returned environment (`none` on failure), the
caller-visible contents of the input array after the call — the source removes
duplicates by shifting the caller's own array (lines 94-99, 116-121) and, when
no copy was made, overwrites its slots (lines 175, 192) — and which allocations
were made and freed.

The counting loop (lines 77-131) needs care: removing a duplicate shifts the
array left in place and then `continue`s, so the loop counter `env_len` is
incremented past the entry just shifted into the current slot — that entry is
kept but never examined — and, when the removed duplicate was the *last*
entry, past the NULL terminator just shifted in, so the loop exits with
`env_len` one greater than the number of remaining entries.  In that case the
`memcpy` of line 146 copies the embedded NULL into the new array and the
appends at lines 166 and 194 land *after* it, invisible to any reader of the
returned pointer.  Working arrays during the rewrite phases are therefore
modelled as slot lists `List (Option (List Char))` — `none` is a NULL slot —
with one further implicit NULL after the last slot; `visEnv` reads such an
array the way a consumer of `char **` does, up to the first NULL. -/

/-- Entry starts with `"LD_PRELOAD="` (the `strncmp` at line 78). -/
def isPreloadE (e : List Char) : Bool := preVar.isPrefixOf e

/-- Entry starts with `"SUDO_INTERCEPT_FD="` (the `strncmp` at line 103). -/
def isFdE (e : List Char) : Bool := fdVar.isPrefixOf e

/-- The value after `"LD_PRELOAD="` (`cp` at lines 80, 169). -/
def valOfPre (e : List Char) : List Char := e.drop preVar.length

/-- The value after `"SUDO_INTERCEPT_FD="` (`cp` at line 106). -/
def valOfFd (e : List Char) : List Char := e.drop fdVar.length

/-- Lines 87-90: `dso_file` is already first in the preload value `v` — `v`
starts with it, followed by the end of string or the delimiter. -/
def dsoFirst (dso v : List Char) : Bool :=
  dso.isPrefixOf v && (v.length == dso.length || v.get? dso.length == some ':')

def digitToChar : Nat → Char
  | 0 => '0'
  | 1 => '1'
  | 2 => '2'
  | 3 => '3'
  | 4 => '4'
  | 5 => '5'
  | 6 => '6'
  | 7 => '7'
  | 8 => '8'
  | _ => '9'

/-- Decimal rendering of a natural number, fuel-indexed (the fuel only bounds
the digit count; `n + 1` digits always suffice). -/
def natDecGo : Nat → Nat → List Char
  | 0, _ => []
  | fuel + 1, n =>
    if n < 10 then [digitToChar n]
    else natDecGo fuel (n / 10) ++ [digitToChar (n % 10)]

/-- Decimal rendering of a natural number (the `%d` of `asprintf`). -/
def natDec (n : Nat) : List Char := natDecGo (n + 1) n

/-- Decimal rendering of an `int` (the `%d` of `asprintf`). -/
def intDec (i : Int) : List Char :=
  if i < 0 then '-' :: natDec i.natAbs else natDec i.toNat

/-- Modelled from the spec: the decimal scan inside `sudo_strtonum` (lib/util,
not under src/) — the side-channel value "must round-trip as a base-10 integer
with no surrounding whitespace". -/
def parseDec (cs : List Char) : Option Nat :=
  if cs.isEmpty then none
  else if cs.all (fun c => decide ('0' ≤ c) && decide (c ≤ '9')) then
    some (cs.foldl (fun a c => a * 10 + (c.toNat - 48)) 0)
  else none

/-- Modelled from the spec: `sudo_strtonum(cp, 0, INT_MAX, &errstr)` at
line 110 — `errstr` stays NULL exactly when the whole string parses within
the range. -/
def strtonumFd (cs : List Char) : Option Nat :=
  match parseDec cs with
  | some n => if n ≤ INT_MAX then some n else none
  | none => none

/-- Line 111: the existing entry's value parses to exactly `intercept_fd`. -/
def fdMatches (fd : Int) (v : List Char) : Bool :=
  match strtonumFd v with
  | some n => decide ((n : Int) = fd)
  | none => false

/-- Modelled from the spec: `sudo_new_key_val(RTLD_PRELOAD_VAR, dso_file)` at
line 161 (lib/util, not under src/) joins key and value with `'='`. -/
def mkPreloadNew (dso : List Char) : List Char := preVar ++ dso

/-- The `asprintf("%s=%s%c%s", RTLD_PRELOAD_VAR, dso_file, RTLD_PRELOAD_DELIM,
old_val)` at lines 170-171. -/
def mkPreloadPrep (dso old : List Char) : List Char := preVar ++ dso ++ ':' :: old

/-- The `asprintf(&fdstr, "SUDO_INTERCEPT_FD=%d", intercept_fd)` at line 187. -/
def mkFdE (fd : Int) : List Char := fdVar ++ intDec fd

/-- State of the counting loop at lines 77-131: the compacted array contents so
far, the saved indices of the first `LD_PRELOAD` / `SUDO_INTERCEPT_FD`
occurrences, and the `dso_present` / `fd_present` flags. -/
structure ScanSt where
  out : List (List Char)
  pidx : Option Nat
  iidx : Option Nat
  dsoP : Bool
  fdP : Bool
deriving DecidableEq

/-- Reference scan: what the counting loop computes on any input in which it
never removes a duplicate — every entry is examined, a second occurrence of a
managed variable is dropped from the contents.  It is *not* the source's loop
on duplicate-carrying inputs (the loop skips the entry shifted into a removed
slot); `scanGo` below is, and `scanGo_eq_scanRef` proves the two agree, with
`env_len` equal to the compacted length, whenever no managed duplicate is
present.  All duplicate-free reasoning goes through this function. -/
def scanRef (dso : List Char) (fd : Int) (st : ScanSt) : List (List Char) → ScanSt
  | [] => st
  | e :: rest =>
    if isPreloadE e = true then
      match st.pidx with
      | none =>
        scanRef dso fd
          { out := st.out ++ [e], pidx := some st.out.length, iidx := st.iidx,
            dsoP := dsoFirst dso (valOfPre e), fdP := st.fdP } rest
      | some _ => scanRef dso fd st rest
    else if fd ≠ -1 ∧ isFdE e = true then
      match st.iidx with
      | none =>
        scanRef dso fd
          { out := st.out ++ [e], pidx := st.pidx, iidx := some st.out.length,
            dsoP := st.dsoP, fdP := fdMatches fd (valOfFd e) } rest
      | some _ => scanRef dso fd st rest
    else scanRef dso fd { st with out := st.out ++ [e] } rest

/-- The counting loop at lines 77-131, faithfully.  Each iteration examines the
entry at index `env_len`, then the `for` update increments `env_len`.  On a
first occurrence of a managed variable the index and flags are recorded
(`SUDO_INTERCEPT_FD` entries are only managed when `intercept_fd != -1`, line
103); on a second occurrence the in-place shift at lines 94-101 / 116-123
removes it and the `continue` then moves `env_len` past the entry shifted into
the current slot, so that entry is kept *unexamined* — if it is itself a
managed occurrence, it neither gets recorded nor removed.  When the removed
duplicate was the last entry, the slot at the current index now holds the
shifted-in NULL, yet `env_len` still advances past it before the loop test
reads the (still NULL) slot beyond, so the loop exits with `env_len` one
greater than the number of entries that remain.  Returns the final state
together with the exit value of `env_len`. -/
def scanGo (dso : List Char) (fd : Int) (st : ScanSt) :
    List (List Char) → ScanSt × Nat
  | [] => (st, st.out.length)
  | e :: rest =>
    if isPreloadE e = true then
      match st.pidx with
      | none =>
        scanGo dso fd
          { out := st.out ++ [e], pidx := some st.out.length, iidx := st.iidx,
            dsoP := dsoFirst dso (valOfPre e), fdP := st.fdP } rest
      | some _ =>
        match rest with
        | [] => (st, st.out.length + 1)
        | f :: rest2 => scanGo dso fd { st with out := st.out ++ [f] } rest2
    else if fd ≠ -1 ∧ isFdE e = true then
      match st.iidx with
      | none =>
        scanGo dso fd
          { out := st.out ++ [e], pidx := st.pidx, iidx := some st.out.length,
            dsoP := st.dsoP, fdP := fdMatches fd (valOfFd e) } rest
      | some _ =>
        match rest with
        | [] => (st, st.out.length + 1)
        | f :: rest2 => scanGo dso fd { st with out := st.out ++ [f] } rest2
    else scanGo dso fd { st with out := st.out ++ [e] } rest

/-- The environment a consumer of the returned `char **` sees: slots up to the
first NULL. -/
def visEnv (body : List (Option (List Char))) : List (List Char) :=
  (body.takeWhile Option.isSome).filterMap id

/-- Tags for the three heap allocations the call can make. -/
inductive AllocTag where
  | nenvpA : AllocTag
  | preloadA : AllocTag
  | fdA : AllocTag
deriving DecidableEq

/-- Result of `sudo_preload_dso`: the returned environment (`none` on failure),
the caller-visible contents of the input array after the call, and the
allocations made and freed. -/
structure PreloadOut where
  ret : Option (List (List Char))
  callerArr : List (List Char)
  allocated : List AllocTag
  freed : List AllocTag
deriving DecidableEq

/-- Successful return (line 202): ownership of the allocations transfers.  The
returned pointer — and, when no copy was made, the caller's array — is read up
to the first NULL slot. -/
def finishP (copied : Bool) (orig : List (List Char))
    (body : List (Option (List Char))) (allocd : List AllocTag) : PreloadOut :=
  { ret := some (visEnv body),
    callerArr := if copied then orig else visEnv body,
    allocated := allocd, freed := [] }

/-- Lines 184-197: install `SUDO_INTERCEPT_FD` unless already present with the
same value — overwriting the saved slot or appending at index `env_len`, which
after an overcounting scan lies past an embedded NULL slot.  The `oom` path
(lines 203-210) frees `preload` and `nenvp`; when no copy was made the
caller's array keeps every write done so far. -/
def fdStage (aF copied : Bool) (orig : List (List Char)) (st : ScanSt)
    (body : List (Option (List Char))) (allocd : List AllocTag) (fd : Int) :
    PreloadOut :=
  if fd ≠ -1 ∧ st.fdP = false then
    if aF = false then
      { ret := none, callerArr := if copied then orig else visEnv body,
        allocated := allocd, freed := allocd }
    else
      match st.iidx with
      | some i =>
        finishP copied orig (body.set i (some (mkFdE fd))) (allocd ++ [AllocTag.fdA])
      | none =>
        finishP copied orig (body ++ [some (mkFdE fd)]) (allocd ++ [AllocTag.fdA])
  else finishP copied orig body allocd

/-- Lines 151-177: prepend the dso to an existing `LD_PRELOAD` value or append
a new entry at index `env_len`, unless the dso is already first.  `old_val` is
read from the saved slot of the (possibly copied) array. -/
def preloadStage (aP aF copied : Bool) (st : ScanSt)
    (body : List (Option (List Char))) (dso : List Char) (fd : Int) : PreloadOut :=
  if st.dsoP = true then
    fdStage aF copied st.out st body (if copied then [AllocTag.nenvpA] else []) fd
  else
    match st.pidx with
    | none =>
      if aP = false then
        { ret := none, callerArr := st.out,
          allocated := if copied then [AllocTag.nenvpA] else [],
          freed := if copied then [AllocTag.nenvpA] else [] }
      else
        fdStage aF copied st.out st (body ++ [some (mkPreloadNew dso)])
          ((if copied then [AllocTag.nenvpA] else []) ++ [AllocTag.preloadA]) fd
    | some i =>
      if aP = false then
        { ret := none, callerArr := st.out,
          allocated := if copied then [AllocTag.nenvpA] else [],
          freed := if copied then [AllocTag.nenvpA] else [] }
      else
        fdStage aF copied st.out st
          (body.set i (some (mkPreloadPrep dso
            (valOfPre (((body.get? i).getD none).getD [])))))
          ((if copied then [AllocTag.nenvpA] else []) ++ [AllocTag.preloadA]) fd

/-- `sudo_preload_dso(envp, dso_file, intercept_fd)` of exec_preload.c in the
Linux configuration (`dso_enabled` constantly true, line 52).  After the
counting loop, a copy is made exactly under the condition of line 138; the
`memcpy` at line 146 copies `env_len` slots of the caller's array — its
compacted entries followed by NULL; `env_len` never exceeds that length plus
one, and reaches the NULL slot exactly when the scan removed a trailing
duplicate.  A failed copy returns NULL at once (lines 142-145), the caller's
array left in its compacted state. -/
def sudo_preload_dso (aN aP aF : Bool) (envp : List (List Char)) (dso : List Char)
    (fd : Int) : PreloadOut :=
  if (scanGo dso fd ⟨[], none, none, false, false⟩ envp).1.pidx.isNone
      || (scanGo dso fd ⟨[], none, none, false, false⟩ envp).1.iidx.isNone then
    if aN = false then
      { ret := none,
        callerArr := (scanGo dso fd ⟨[], none, none, false, false⟩ envp).1.out,
        allocated := [], freed := [] }
    else
      preloadStage aP aF true (scanGo dso fd ⟨[], none, none, false, false⟩ envp).1
        (((scanGo dso fd ⟨[], none, none, false, false⟩ envp).1.out.map some
            ++ [none]).take (scanGo dso fd ⟨[], none, none, false, false⟩ envp).2)
        dso fd
  else
    preloadStage aP aF false (scanGo dso fd ⟨[], none, none, false, false⟩ envp).1
      ((scanGo dso fd ⟨[], none, none, false, false⟩ envp).1.out.map some) dso fd

/-- The slot array produced by the preload phase (lines 151-177) on a fully
allocated run, as established in `preloadStage_ret`. -/
def preApplyB (st : ScanSt) (dso : List Char) (body : List (Option (List Char))) :
    List (Option (List Char)) :=
  if st.dsoP = true then body
  else
    match st.pidx with
    | none => body ++ [some (mkPreloadNew dso)]
    | some i =>
      body.set i (some (mkPreloadPrep dso (valOfPre (((body.get? i).getD none).getD []))))

/-- The slot array produced by the side-channel phase (lines 184-197) on a
fully allocated run, as established in `fdStage_ret`. -/
def fdApplyB (st : ScanSt) (fd : Int) (body : List (Option (List Char))) :
    List (Option (List Char)) :=
  if fd ≠ -1 ∧ st.fdP = false then
    match st.iidx with
    | some j => body.set j (some (mkFdE fd))
    | none => body ++ [some (mkFdE fd)]
  else body

/-- Entry-level reading of the preload phase on a duplicate-free run, where the
working array has no NULL slot (established in `sudo_preload_ret_nodup`). -/
def preApply (st : ScanSt) (dso : List Char) : List (List Char) :=
  if st.dsoP = true then st.out
  else
    match st.pidx with
    | none => st.out ++ [mkPreloadNew dso]
    | some i => st.out.set i (mkPreloadPrep dso (valOfPre ((st.out.get? i).getD [])))

/-- Entry-level reading of the side-channel phase on a duplicate-free run,
where the working array has no NULL slot (established in
`sudo_preload_ret_nodup`). -/
def fdApply (st : ScanSt) (fd : Int) (arr : List (List Char)) : List (List Char) :=
  if fd ≠ -1 ∧ st.fdP = false then
    match st.iidx with
    | some j => arr.set j (mkFdE fd)
    | none => arr ++ [mkFdE fd]
  else arr

/-- The preload entry a successful build leaves in the output, as a function of
the input's first `LD_PRELOAD` occurrence (proved in `preload_build_char`). -/
def preOut (envp : List (List Char)) (dso : List Char) : List Char :=
  match envp.find? isPreloadE with
  | some e => if dsoFirst dso (valOfPre e) = true then e else mkPreloadPrep dso (valOfPre e)
  | none => mkPreloadNew dso

/-- The side-channel entry a successful build with `fd ≠ -1` leaves in the
output, as a function of the input's first occurrence. -/
def fdOut (envp : List (List Char)) (fd : Int) : List Char :=
  match envp.find? isFdE with
  | some e => if fdMatches fd (valOfFd e) = true then e else mkFdE fd
  | none => mkFdE fd

/-- A PATH component on which the scan continues: its candidate is too long, or
`stat` fails with one of the errors lines 111-118 treat as non-fatal. -/
def nonfatalComp (stat : List Char → StatRes) (cmnd dir : List Char) : Prop :=
  PATH_MAX ≤ (candPath dir cmnd).length
    ∨ ∃ e, stat (candPath dir cmnd) = .err e
        ∧ (e = EACCES ∨ e = ELOOP ∨ e = ENOTDIR ∨ e = ENOENT)

/-! # Theorems -/

/-! ## Generic list lemmas -/

theorem countP_zero_cons {p : α → Bool} {a : α} {l : List α}
    (h : (a :: l).countP p = 0) : p a = false ∧ l.countP p = 0 := by
  rw [List.countP_cons] at h
  constructor
  · by_contra hb
    simp [eq_true_of_ne_false hb] at h
  · omega

theorem find?_append_of_clean {p : α → Bool} :
    ∀ {A : List α}, A.countP p = 0 → ∀ B, (A ++ B).find? p = B.find? p
  | [], _, _ => rfl
  | a :: A, h, B => by
    obtain ⟨ha, hA⟩ := countP_zero_cons h
    rw [List.cons_append, List.find?_cons_of_neg _ (by simp [ha])]
    exact find?_append_of_clean hA B

theorem find?_clean_cons {p : α → Bool} {A : List α} (h : A.countP p = 0)
    {v : α} (hv : p v = true) (B : List α) : (A ++ v :: B).find? p = some v := by
  rw [find?_append_of_clean h, List.find?_cons_of_pos _ hv]

theorem find?_mid_congr {p : α → Bool} :
    ∀ (A : List α) {v w : α}, p v = false → p w = false →
      ∀ B, (A ++ v :: B).find? p = (A ++ w :: B).find? p
  | [], v, w, hv, hw, B => by
    rw [List.nil_append, List.nil_append, List.find?_cons_of_neg _ (by simp [hv]),
      List.find?_cons_of_neg _ (by simp [hw])]
  | a :: A, v, w, hv, hw, B => by
    by_cases ha : p a = true
    · rw [List.cons_append, List.find?_cons_of_pos _ ha, List.cons_append,
        List.find?_cons_of_pos _ ha]
    · rw [List.cons_append, List.find?_cons_of_neg _ ha, List.cons_append,
        List.find?_cons_of_neg _ ha]
      exact find?_mid_congr A hv hw B

theorem countP_zero_iff_find?_none {p : α → Bool} {l : List α} :
    l.countP p = 0 ↔ l.find? p = none := by
  rw [List.countP_eq_zero, List.find?_eq_none]

theorem get?_some_decomp {l : List α} {i : Nat} {v : α} (h : l.get? i = some v) :
    l = l.take i ++ v :: l.drop (i + 1) ∧ (l.take i).length = i := by
  obtain ⟨hlt, hv⟩ := List.get?_eq_some.mp h
  constructor
  · conv_lhs => rw [← List.take_append_drop i l]
    rw [List.drop_eq_get_cons hlt, hv]
  · simp [List.length_take]
    omega

theorem set_of_get?_some {l : List α} {i : Nat} {v : α} (h : l.get? i = some v)
    (w : α) : l.set i w = l.take i ++ w :: l.drop (i + 1) := by
  obtain ⟨hlt, _⟩ := List.get?_eq_some.mp h
  exact List.set_eq_take_cons_drop w hlt

theorem set_same_of_get?_some {l : List α} {i : Nat} {v : α}
    (h : l.get? i = some v) : l.set i v = l := by
  rw [set_of_get?_some h v]
  exact ((get?_some_decomp h).1).symm

/-! ## Path resolver: claims C5 and C6 -/

theorem resolveLoop_skips_nonfatal (stat : List Char → StatRes) (cmnd : List Char) :
    ∀ (pre : List (List Char)) (d : List Char) (rest : List (List Char)) (ev : Nat),
      (∀ c ∈ pre, nonfatalComp stat cmnd c) →
      (candPath d cmnd).length < PATH_MAX →
      stat (candPath d cmnd) = .ok →
      resolveLoop stat cmnd PATH_MAX (pre ++ d :: rest) ev = .ok (candPath d cmnd)
  | [], d, rest, ev, _, hd1, hd2 => by
    simp only [List.nil_append, resolveLoop]
    rw [if_neg (by omega), hd2]
    rw [if_neg (by omega)]
  | c :: pre, d, rest, ev, hpre, hd1, hd2 => by
    have hc := hpre c (by simp)
    have hrec := fun ev => resolveLoop_skips_nonfatal stat cmnd pre d rest ev
      (fun x hx => hpre x (by simp [hx])) hd1 hd2
    rcases hc with hlong | ⟨e, he, hcase⟩
    · simp only [List.cons_append, resolveLoop, if_pos hlong]
      exact hrec _
    · by_cases hlong : PATH_MAX ≤ (candPath c cmnd).length
      · simp only [List.cons_append, resolveLoop, if_pos hlong]
        exact hrec _
      · rcases hcase with rfl | rfl | rfl | rfl
        all_goals
          simp only [List.cons_append, resolveLoop, if_neg hlong, he,
            EACCES, ELOOP, ENOTDIR, ENOENT]
          norm_num
          exact hrec _

/-- C5: for a command name without a directory separator, `resolve_path` visits
the PATH components in declared order and succeeds immediately with the first
candidate whose `stat` succeeds, regardless of permission-denied (or other
non-fatal) results on earlier components. -/
theorem resolve_path_first_match (environ : List (List Char))
    (stat : List Char → StatRes) (cmnd pv : List Char)
    (pre : List (List Char)) (d : List Char) (rest : List (List Char))
    (hsl : cmnd.contains '/' = false)
    (hfind : findPATH environ = some pv)
    (hcomps : pathComps pv = pre ++ d :: rest)
    (hpre : ∀ c ∈ pre, nonfatalComp stat cmnd c)
    (hd1 : (candPath d cmnd).length < PATH_MAX)
    (hd2 : stat (candPath d cmnd) = .ok) :
    resolve_path environ stat cmnd PATH_MAX = .ok (candPath d cmnd) := by
  unfold resolve_path
  rw [hfind]
  show resolveLoop stat cmnd PATH_MAX (pathComps pv) ENOENT = _
  rw [hcomps]
  exact resolveLoop_skips_nonfatal stat cmnd pre d rest ENOENT hpre hd1 hd2

/-- C5 witness: the spec's own example, PATH = `/missing:/noperm:/ok` where
`/noperm/cmd` stats permission-denied and `/ok/cmd` exists. -/
theorem resolve_path_first_match_witness :
    resolve_path [("PATH=/missing:/noperm:/ok").toList]
      (fun p =>
        if p = ("/ok/cmd").toList then .ok
        else if p = ("/noperm/cmd").toList then .err EACCES
        else .err ENOENT)
      (("cmd").toList) PATH_MAX = .ok (("/ok/cmd").toList) := by
  have h := resolve_path_first_match [("PATH=/missing:/noperm:/ok").toList]
    (fun p =>
      if p = ("/ok/cmd").toList then .ok
      else if p = ("/noperm/cmd").toList then .err EACCES
      else .err ENOENT)
    (("cmd").toList) (("/missing:/noperm:/ok").toList)
    [("/missing").toList, ("/noperm").toList] (("/ok").toList) []
    (by decide) (by decide) (by decide)
    (by
      intro c hc
      simp only [List.mem_cons, List.not_mem_nil, or_false] at hc
      rcases hc with rfl | rfl
      · exact Or.inr ⟨ENOENT, by decide, by simp [EACCES, ELOOP, ENOTDIR, ENOENT]⟩
      · exact Or.inr ⟨EACCES, by decide, by simp [EACCES]⟩)
    (by decide) (by decide)
  simpa using h

theorem resolveLoop_all_nonfatal (stat : List Char → StatRes) (cmnd : List Char) :
    ∀ (comps : List (List Char)) (ev : Nat),
      (∀ c ∈ comps, nonfatalComp stat cmnd c) →
      resolveLoop stat cmnd PATH_MAX comps ev = .error (scanErr stat cmnd comps ev)
  | [], ev, _ => rfl
  | c :: comps, ev, hall => by
    have hc := hall c (by simp)
    have hrec := fun ev => resolveLoop_all_nonfatal stat cmnd comps ev
      (fun x hx => hall x (by simp [hx]))
    rcases hc with hlong | ⟨e, he, hcase⟩
    · simp only [resolveLoop, if_pos hlong, scanErr, List.foldl_cons]
      exact hrec _
    · by_cases hlong : PATH_MAX ≤ (candPath c cmnd).length
      · simp only [resolveLoop, if_pos hlong, scanErr, List.foldl_cons]
        exact hrec _
      · rcases hcase with rfl | rfl | rfl | rfl
        all_goals
          simp only [resolveLoop, if_neg hlong, he, scanErr, List.foldl_cons,
            EACCES, ELOOP, ENOTDIR, ENOENT]
          norm_num
          exact hrec _

theorem isPrefixOf_append_self {α : Type} [BEq α] [LawfulBEq α] (l r : List α) :
    l.isPrefixOf (l ++ r) = true := by
  rw [List.isPrefixOf_iff_prefix]
  exact ⟨r, rfl⟩

theorem pathCompsGo_no_colon :
    ∀ (cs acc rest : List Char), (∀ c ∈ cs, c ≠ ':') →
      pathCompsGo acc (cs ++ ':' :: rest) = (acc.reverse ++ cs) :: pathCompsGo [] rest
  | [], acc, rest, _ => by simp [pathCompsGo]
  | c :: cs, acc, rest, h => by
    have hc : c ≠ ':' := h c (by simp)
    simp only [List.cons_append, pathCompsGo, if_neg hc]
    show pathCompsGo (c :: acc) (cs ++ ':' :: rest) = _
    rw [pathCompsGo_no_colon cs (c :: acc) rest (fun x hx => h x (by simp [hx]))]
    simp

theorem candPath_replicate_len :
    (candPath (List.replicate 4095 'a') (("cmd").toList)).length = 4099 := by
  have hne : (List.replicate 4095 'a' : List Char) ≠ [] := by
    intro h
    have h2 := congrArg List.length h
    rw [List.length_replicate] at h2
    simp at h2
  rw [candPath, if_neg hne, List.length_append, List.length_replicate]
  decide

theorem findPATH_single (pv : List Char) :
    findPATH [pathVar ++ pv] = some pv := by
  unfold findPATH
  rw [List.find?_cons_of_pos _ (isPrefixOf_append_self _ _)]
  show some (List.drop pathVar.length (pathVar ++ pv)) = some pv
  rw [List.drop_left]

theorem pathComps_cx :
    pathComps (List.replicate 4095 'a' ++ (":/np").toList)
      = [List.replicate 4095 'a', ("/np").toList] := by
  unfold pathComps
  rw [show ((":/np").toList) = ':' :: (("/np").toList) from by decide]
  rw [pathCompsGo_no_colon (List.replicate 4095 'a') [] (("/np").toList)
    (fun c hc => by rw [List.eq_of_mem_replicate hc]; decide)]
  rw [List.reverse_nil, List.nil_append]
  rw [show pathCompsGo [] (("/np").toList) = [("/np").toList] from by decide]

/-- C6 (counterexample): the code does not apply a fixed priority order
too-long > permission-denied.  With a first PATH component whose candidate is
too long and a later permission-denied component, the remembered
`ENAMETOOLONG` is overwritten and the call fails with `EACCES`. -/
theorem resolve_path_error_priority_counterexample :
    resolve_path [pathVar ++ (List.replicate 4095 'a' ++ (":/np").toList)]
        (fun p => if p = ("/np/cmd").toList then .err EACCES else .err ENOENT)
        (("cmd").toList) PATH_MAX = .error EACCES
      ∧ PATH_MAX ≤ (candPath (List.replicate 4095 'a') (("cmd").toList)).length
      ∧ EACCES ≠ ENAMETOOLONG := by
  have hlen : PATH_MAX ≤ (candPath (List.replicate 4095 'a') (("cmd").toList)).length := by
    rw [candPath_replicate_len]
    norm_num [PATH_MAX]
  refine ⟨?_, hlen, by decide⟩
  unfold resolve_path
  rw [findPATH_single]
  show resolveLoop _ _ PATH_MAX _ ENOENT = _
  rw [pathComps_cx]
  rw [resolveLoop_all_nonfatal _ _ _ ENOENT ?hall]
  case hall =>
    intro c hc
    simp only [List.mem_cons, List.not_mem_nil, or_false] at hc
    rcases hc with rfl | rfl
    · exact Or.inl hlen
    · refine Or.inr ⟨EACCES, ?_, Or.inl rfl⟩
      show (if candPath (("/np").toList) (("cmd").toList) = ("/np/cmd").toList
        then StatRes.err EACCES else StatRes.err ENOENT) = StatRes.err EACCES
      rw [if_pos (by decide)]
  simp only [scanErr, List.foldl_cons, List.foldl_nil]
  rw [if_pos hlen]
  rw [if_neg (by decide : ¬ PATH_MAX ≤ (candPath (("/np").toList) (("cmd").toList)).length)]
  rfl

/-- C6 (amended): when every PATH component fails non-fatally (too-long
candidate or non-fatal `stat` error), `resolve_path` fails with the error of a
single left-to-right scan in which a too-long candidate records `ENAMETOOLONG`
and a permission-denied `stat` records `EACCES`, each record overwriting the
previous one — the final remembered reason wins — starting from `ENOENT`.  In
particular, when neither condition ever occurs it fails with `ENOENT`. -/
theorem resolve_path_last_error (environ : List (List Char))
    (stat : List Char → StatRes) (cmnd pv : List Char)
    (hfind : findPATH environ = some pv)
    (hall : ∀ c ∈ pathComps pv, nonfatalComp stat cmnd c) :
    resolve_path environ stat cmnd PATH_MAX
      = .error (scanErr stat cmnd (pathComps pv) ENOENT) := by
  unfold resolve_path
  rw [hfind]
  show resolveLoop stat cmnd PATH_MAX (pathComps pv) ENOENT = _
  exact resolveLoop_all_nonfatal stat cmnd (pathComps pv) ENOENT hall

/-- C6 witness: the spec's total-failure example — PATH = `/a:/b`, neither
containing `cmd` and no permission or length conditions: the call fails with
`ENOENT`. -/
theorem resolve_path_last_error_witness :
    resolve_path [("PATH=/a:/b").toList] (fun _ => .err ENOENT)
      (("cmd").toList) PATH_MAX = .error ENOENT := by
  have h := resolve_path_last_error [("PATH=/a:/b").toList] (fun _ => .err ENOENT)
    (("cmd").toList) (("/a:/b").toList) (by decide)
    (fun c _ => Or.inr ⟨ENOENT, rfl, by simp [EACCES, ELOOP, ENOTDIR, ENOENT]⟩)
  rw [h]
  decide

/-! ## Exec gatekeeper: claims C1, C7, C9, C10, C4 -/

theorem gatekeeper_denial (C : Caps) (cmnd2 : Str) (argv envp : Arr) (vp : Bool)
    (hden : ∀ c a e, C.oracle c a e = none) :
    gatekeeper C cmnd2 argv envp vp
      = if C.fnAvail = false then .ret (-1) EACCES []
        else .ret (-1) EACCES [Ev.oracleQ cmnd2.val argv.val envp.val] := by
  unfold gatekeeper
  rw [hden]

/-- C1: whenever the policy oracle denies, the real exec implementation is
never invoked, `exec_wrapper` returns `-1`, and on any path that actually
consulted the oracle the error state is `EACCES`. -/
theorem exec_wrapper_denial (C : Caps) (cmnd : Str) (argv envp : Arr) (vp : Bool)
    (hden : ∀ c a e, C.oracle c a e = none) :
    ((exec_wrapper C cmnd argv envp vp).trace.all (fun ev => !ev.isRealX) = true)
    ∧ ∃ er tr, exec_wrapper C cmnd argv envp vp = .ret (-1) er tr
        ∧ (tr.any Ev.isOracleQ = true → er = EACCES) := by
  have hgk : ∀ cmnd2 : Str,
      ((gatekeeper C cmnd2 argv envp vp).trace.all (fun ev => !ev.isRealX) = true)
      ∧ ∃ er tr, gatekeeper C cmnd2 argv envp vp = .ret (-1) er tr
          ∧ (tr.any Ev.isOracleQ = true → er = EACCES) := by
    intro cmnd2
    rw [gatekeeper_denial C cmnd2 argv envp vp hden]
    by_cases hf : C.fnAvail = false
    · rw [if_pos hf]
      exact ⟨rfl, EACCES, [], rfl, fun _ => rfl⟩
    · rw [if_neg hf]
      exact ⟨rfl, EACCES, [Ev.oracleQ cmnd2.val argv.val envp.val], rfl, fun _ => rfl⟩
  unfold exec_wrapper
  by_cases h1 : cmnd.val.contains '/' = false ∧ vp = false
  · rw [if_pos h1]
    exact ⟨rfl, ENOENT, [], rfl, by simp⟩
  · rw [if_neg h1]
    by_cases h2 : cmnd.val.contains '/' = true
    · rw [if_pos h2]
      exact hgk cmnd
    · rw [if_neg h2]
      cases hres : resolve_path C.environ.val C.stat cmnd.val PATH_MAX with
      | error e => exact ⟨rfl, e, [], rfl, by simp⟩
      | ok p => exact hgk ⟨C.bufId, p⟩

/-- C1 witness: a concrete always-denying oracle double. -/
theorem exec_wrapper_denial_witness :
    ((exec_wrapper
        ⟨⟨0, []⟩, fun _ => StatRes.err ENOENT, true, fun _ _ _ => none,
          fun _ _ _ => some 1, true, 99⟩
        ⟨1, ['/', 'c']⟩ ⟨2, []⟩ ⟨3, []⟩ false).trace.all (fun ev => !ev.isRealX) = true)
    ∧ ∃ er tr, exec_wrapper
        ⟨⟨0, []⟩, fun _ => StatRes.err ENOENT, true, fun _ _ _ => none,
          fun _ _ _ => some 1, true, 99⟩
        ⟨1, ['/', 'c']⟩ ⟨2, []⟩ ⟨3, []⟩ false = .ret (-1) er tr
        ∧ (tr.any Ev.isOracleQ = true → er = EACCES) :=
  exec_wrapper_denial _ _ _ _ false (fun _ _ _ => rfl)

/-- C7 (counterexample): with an oracle that rewrites the command and argument
list, the ENOEXEC shell fallback executes
`["sh", ncmnd, nargv[1], …]` — the oracle-returned objects — not
`["sh", resolved path, original arguments]` as the claim states: here the
original command is `/s` with original arguments `[s, x]`, the oracle rewrote
them to `/t` and `[b, y]`, and the shell vector is `[sh, /t, y]`. -/
theorem exec_fallback_shape_counterexample :
    (exec_wrapper
        ⟨⟨0, []⟩, fun _ => StatRes.err ENOENT, true,
          fun _ _ _ => some (⟨10, ['/', 't']⟩, ⟨11, [['b'], ['y']]⟩, ⟨12, [['E']]⟩),
          fun c _ _ => if c = sudoBshell then some 5 else some ENOEXEC, true, 99⟩
        ⟨1, ['/', 's']⟩ ⟨2, [['s'], ['x']]⟩ ⟨3, []⟩ true).trace
      = [Ev.oracleQ ['/', 's'] [['s'], ['x']] [],
         Ev.realX ['/', 't'] (ntArr [['b'], ['y']]) [['E']],
         Ev.allocSh,
         Ev.realX sudoBshell (shSlots 2 ['/', 't'] [['b'], ['y']]) [['E']],
         Ev.freeSh, Ev.freeStr 10, Ev.freeArr 11, Ev.freeArr 12]
    ∧ shSlots 2 ['/', 't'] [['b'], ['y']]
        ≠ [some shName, some ['/', 's'], some ['x'], none] := by
  decide

/-- C7 (amended): for the PATH-searching variants, an authorized exec failing
with ENOEXEC is retried through the shell with argument vector
`["sh", ncmnd, nargv[1], …, nargv[argc-1]]` built from the oracle-returned
command and argument list (which coincide with the resolved command and the
original arguments when the oracle returns its inputs unchanged) and the
oracle-returned environment, the slot count `argc` being taken from the
original `argv`; for non-PATH-searching variants any real-exec failure,
ENOEXEC included, is surfaced unchanged with no fallback. -/
theorem gatekeeper_enoexec_fallback :
    (∀ (C : Caps) (cmnd2 : Str) (argv envp : Arr) (nc : Str) (na ne : Arr),
      C.fnAvail = true →
      C.oracle cmnd2.val argv.val envp.val = some (nc, na, ne) →
      C.realExec nc.val (ntArr na.val) ne.val = some ENOEXEC →
      C.shAllocOk = true →
      Ev.realX sudoBshell (shSlots argv.val.length nc.val na.val) ne.val
        ∈ (gatekeeper C cmnd2 argv envp true).trace)
    ∧ (∀ (C : Caps) (cmnd2 : Str) (argv envp : Arr) (nc : Str) (na ne : Arr) (e1 : Nat),
      C.fnAvail = true →
      C.oracle cmnd2.val argv.val envp.val = some (nc, na, ne) →
      C.realExec nc.val (ntArr na.val) ne.val = some e1 →
      gatekeeper C cmnd2 argv envp false
        = .ret (-1) e1 ([Ev.oracleQ cmnd2.val argv.val envp.val,
            Ev.realX nc.val (ntArr na.val) ne.val] ++ freesEv cmnd2 argv envp nc na ne)) := by
  constructor
  · intro C cmnd2 argv envp nc na ne hfn hor hx1 hsh
    unfold gatekeeper afterAllow
    simp only [hfn, hor, hx1, hsh, Bool.true_eq_false, if_false, and_self, if_true, eq_self_iff_true]
    cases hx2 : C.realExec sudoBshell (shSlots argv.val.length nc.val na.val) ne.val with
    | none => simp [XRes.trace]
    | some e2 => simp [XRes.trace]
  · intro C cmnd2 argv envp nc na ne e1 hfn hor hx1
    unfold gatekeeper afterAllow
    simp only [hfn, hor, hx1, Bool.true_eq_false, if_false, Bool.false_eq_true, and_false]

/-- C7 witness: a concrete instantiation of the amended fallback shape. -/
theorem gatekeeper_enoexec_fallback_witness :
    Ev.realX sudoBshell (shSlots 2 ['/', 't'] [['b'], ['y']]) [['E']]
      ∈ (gatekeeper
          ⟨⟨0, []⟩, fun _ => StatRes.err ENOENT, true,
            fun _ _ _ => some (⟨10, ['/', 't']⟩, ⟨11, [['b'], ['y']]⟩, ⟨12, [['E']]⟩),
            fun c _ _ => if c = sudoBshell then some 5 else some ENOEXEC, true, 99⟩
          ⟨1, ['/', 's']⟩ ⟨2, [['s'], ['x']]⟩ ⟨3, []⟩ true).trace :=
  gatekeeper_enoexec_fallback.1
    ⟨⟨0, []⟩, fun _ => StatRes.err ENOENT, true,
      fun _ _ _ => some (⟨10, ['/', 't']⟩, ⟨11, [['b'], ['y']]⟩, ⟨12, [['E']]⟩),
      fun c _ _ => if c = sudoBshell then some 5 else some ENOEXEC, true, 99⟩
    ⟨1, ['/', 's']⟩ ⟨2, [['s'], ['x']]⟩ ⟨3, []⟩
    ⟨10, ['/', 't']⟩ ⟨11, [['b'], ['y']]⟩ ⟨12, [['E']]⟩ rfl rfl (by decide) rfl

/-- C9 (counterexample): the caller's `envp` does not even take part in the
pointer comparison guarding the free of the oracle-returned environment: here
the oracle returns the very object the caller passed as `envp` (address 7), yet
it is freed, because the comparison is made against `environ` (address 0). -/
theorem execve_envp_counterexample :
    execve
        ⟨⟨0, [['P']]⟩, fun _ => StatRes.err ENOENT, true,
          fun _ _ _ => some (⟨1, ['/', 'c']⟩, ⟨2, [['c']]⟩, ⟨7, [['Q']]⟩),
          fun _ _ _ => some 1, true, 99⟩
        ⟨1, ['/', 'c']⟩ ⟨2, [['c']]⟩ ⟨7, [['Z']]⟩
      = .ret (-1) 1 [Ev.oracleQ ['/', 'c'] [['c']] [['P']],
          Ev.realX ['/', 'c'] (ntArr [['c']]) [['Q']],
          Ev.freeArr 7]
    ∧ (⟨7, [['Z']]⟩ : Arr).id = (⟨7, [['Q']]⟩ : Arr).id := by
  decide

theorem freesEv_no_oracleQ (cmnd : Str) (argv envp : Arr) (nc : Str) (na ne : Arr) :
    (freesEv cmnd argv envp nc na ne).all (fun ev => !ev.isOracleQ) = true := by
  unfold freesEv
  split_ifs <;> simp [Ev.isOracleQ]

theorem afterAllow_trace_shape (C : Caps) (cmnd2 : Str) (argv envp : Arr) (vp : Bool)
    (nc : Str) (na ne : Arr) :
    ∃ rest, (afterAllow C cmnd2 argv envp vp nc na ne).trace
        = Ev.oracleQ cmnd2.val argv.val envp.val :: rest
      ∧ rest.all (fun ev => !ev.isOracleQ) = true := by
  have hfr := freesEv_no_oracleQ cmnd2 argv envp nc na ne
  have hfr2 := List.all_eq_true.mp hfr
  unfold afterAllow
  repeat' split
  all_goals refine ⟨_, rfl, ?_⟩
  all_goals simp_all [List.all_append, List.all_cons, Ev.isOracleQ]

theorem gatekeeper_oracleQ_envp (C : Caps) (cmnd2 : Str) (argv envp : Arr) (vp : Bool) :
    ∀ c a e, Ev.oracleQ c a e ∈ (gatekeeper C cmnd2 argv envp vp).trace → e = envp.val := by
  intro c a e hmem
  unfold gatekeeper at hmem
  by_cases hf : C.fnAvail = false
  · rw [if_pos hf] at hmem
    simp [XRes.trace] at hmem
  · rw [if_neg hf] at hmem
    cases hor : C.oracle cmnd2.val argv.val envp.val with
    | none =>
      rw [hor] at hmem
      simp only [XRes.trace, List.mem_singleton] at hmem
      injection hmem
    | some trip =>
      rw [hor] at hmem
      obtain ⟨nc, na, ne⟩ := trip
      replace hmem : Ev.oracleQ c a e ∈ (afterAllow C cmnd2 argv envp vp nc na ne).trace := hmem
      obtain ⟨rest, hsh, hall⟩ := afterAllow_trace_shape C cmnd2 argv envp vp nc na ne
      rw [hsh] at hmem
      rcases List.mem_cons.mp hmem with heq | hrest
      · injection heq
      · have := List.all_eq_true.mp hall _ hrest
        simp [Ev.isOracleQ] at this

/-- C9 (amended): the replacement `execve` ignores its `envp` parameter
entirely: the result is identical for any two `envp` arguments, and every
oracle query it makes carries the process's live `environ` — the free decision,
too, is made against `environ`, so the caller's `envp` participates in
nothing. -/
theorem execve_ignores_envp (C : Caps) (cmnd : Str) (argv envp1 envp2 : Arr) :
    execve C cmnd argv envp1 = execve C cmnd argv envp2
    ∧ (∀ c a e, Ev.oracleQ c a e ∈ (execve C cmnd argv envp1).trace →
        e = C.environ.val) := by
  constructor
  · rfl
  · intro c a e hmem
    unfold execve exec_wrapper at hmem
    by_cases h1 : cmnd.val.contains '/' = false ∧ false = false
    · rw [if_pos h1] at hmem
      simp [XRes.trace] at hmem
    · rw [if_neg h1] at hmem
      by_cases h2 : cmnd.val.contains '/' = true
      · rw [if_pos h2] at hmem
        exact gatekeeper_oracleQ_envp C cmnd argv C.environ false c a e hmem
      · rw [if_neg h2] at hmem
        cases hres : resolve_path C.environ.val C.stat cmnd.val PATH_MAX with
        | error er =>
          rw [hres] at hmem
          simp [XRes.trace] at hmem
        | ok p =>
          rw [hres] at hmem
          exact gatekeeper_oracleQ_envp C ⟨C.bufId, p⟩ argv C.environ false c a e hmem

/-- C9 witness: the amended irrelevance fact applied at two concretely
different `envp` objects. -/
theorem execve_ignores_envp_witness :
    execve
        ⟨⟨0, [['P']]⟩, fun _ => StatRes.err ENOENT, true, fun _ _ _ => none,
          fun _ _ _ => some 1, true, 99⟩
        ⟨1, ['/', 'c']⟩ ⟨2, []⟩ ⟨7, [['Z']]⟩
      = execve
        ⟨⟨0, [['P']]⟩, fun _ => StatRes.err ENOENT, true, fun _ _ _ => none,
          fun _ _ _ => some 1, true, 99⟩
        ⟨1, ['/', 'c']⟩ ⟨2, []⟩ ⟨8, [['W']]⟩ :=
  (execve_ignores_envp _ ⟨1, ['/', 'c']⟩ ⟨2, []⟩ ⟨7, [['Z']]⟩ ⟨8, [['W']]⟩).1

theorem none_mem_map_some_take :
    ∀ (xs : List (List Char)) (k : Nat),
      none ∈ (xs.map some ++ [none]).take k → xs.length < k
  | [], 0, h => by simp at h
  | [], k + 1, _ => by simp
  | x :: xs, 0, h => by simp at h
  | x :: xs, k + 1, h => by
    simp only [List.map_cons, List.cons_append, List.take_succ_cons, List.mem_cons] at h
    rcases h with h | h
    · exact absurd h.symm (by simp)
    · have := none_mem_map_some_take xs k h
      simp only [List.length_cons]
      omega

/-- C10: in the ENOEXEC fallback the slot count is computed from the caller's
original `argv` while the copied entries come from the oracle-rewritten `nargv`
starting at index 1; the copy stays within `nargv`'s storage and the resulting
vector is NUL-terminated only under the precondition that the rewritten
argument list has the same length as the original `argv`. -/
theorem fallback_safe_only_if_same_length (argv nargv : List (List Char))
    (h : fallbackInBounds argv.length nargv ∧ fallbackNullTerm argv.length nargv) :
    nargv.length = argv.length := by
  obtain ⟨hb, ht⟩ := h
  have hb2 : argv.length ≤ nargv.length := by
    unfold fallbackInBounds ntArr at hb
    simp only [List.length_append, List.length_map, List.length_singleton] at hb
    omega
  unfold fallbackNullTerm fallbackCopied ntArr at ht
  cases nargv with
  | nil => simp at ht
  | cons x xs =>
    simp only [List.map_cons, List.cons_append, List.drop_succ_cons, List.drop_zero] at ht
    have := none_mem_map_some_take xs argv.length ht
    simp only [List.length_cons] at hb2 ⊢
    omega

/-- C10 witness: the precondition follows at a concrete safe instance. -/
theorem fallback_safe_only_if_same_length_witness :
    (fallbackInBounds 2 [['a'], ['b']] ∧ fallbackNullTerm 2 [['a'], ['b']])
    ∧ ([['a'], ['b']] : List (List Char)).length = ([['x'], ['y']] : List (List Char)).length :=
  ⟨⟨by decide, by decide⟩,
    fallback_safe_only_if_same_length [['x'], ['y']] [['a'], ['b']] ⟨by decide, by decide⟩⟩

/-- C4: evaluation at the leaking path — the oracle returned three fresh
objects (addresses 10, 11, 12, all distinct from the inputs' 1, 2, 3), the
authorized exec failed with ENOEXEC and the `shargv` allocation failed: the
call returns `-1` without freeing anything, leaking all three. -/
theorem exec_wrapper_shargv_alloc_leak :
    (exec_wrapper
        ⟨⟨0, []⟩, fun _ => StatRes.err ENOENT, true,
          fun _ _ _ => some (⟨10, ['/', 'n']⟩, ⟨11, [['b']]⟩, ⟨12, [['F']]⟩),
          fun _ _ _ => some ENOEXEC, false, 99⟩
        ⟨1, ['/', 's']⟩ ⟨2, [['s']]⟩ ⟨3, [['E']]⟩ true)
      = .ret (-1) ENOMEM [Ev.oracleQ ['/', 's'] [['s']] [['E']],
          Ev.realX ['/', 'n'] (ntArr [['b']]) [['F']]]
    ∧ ([Ev.oracleQ ['/', 's'] [['s']] [['E']],
          Ev.realX ['/', 'n'] (ntArr [['b']]) [['F']]].all (fun ev => !ev.isFree) = true)
    ∧ ((10 : Nat) ≠ 1 ∧ (11 : Nat) ≠ 2 ∧ (12 : Nat) ≠ 3) := by
  decide

/-! ## Preload builder: entry-class lemmas -/

theorem isPrefixOf_head {a : α} {l e : List α} [DecidableEq α]
    (h : (a :: l).isPrefixOf e = true) : ∃ t, e = a :: t := by
  cases e with
  | nil => simp [List.isPrefixOf] at h
  | cons b t =>
    simp only [List.isPrefixOf, Bool.and_eq_true, beq_iff_eq] at h
    exact ⟨t, by rw [h.1]⟩

theorem preload_not_fd {e : List Char} (h : isPreloadE e = true) : isFdE e = false := by
  obtain ⟨t, rfl⟩ := isPrefixOf_head
    (show ('L' :: ['D', '_', 'P', 'R', 'E', 'L', 'O', 'A', 'D', '=']).isPrefixOf e = true from h)
  simp [isFdE, fdVar, List.isPrefixOf]

theorem fd_not_preload {e : List Char} (h : isFdE e = true) : isPreloadE e = false := by
  obtain ⟨t, rfl⟩ := isPrefixOf_head
    (show ('S' :: ['U', 'D', 'O', '_', 'I', 'N', 'T', 'E', 'R', 'C', 'E', 'P', 'T', '_', 'F', 'D', '=']).isPrefixOf e
      = true from h)
  simp [isPreloadE, preVar, List.isPrefixOf]

theorem isPreloadE_mkNew (dso : List Char) : isPreloadE (mkPreloadNew dso) = true :=
  isPrefixOf_append_self preVar dso

theorem isPreloadE_mkPrep (dso old : List Char) : isPreloadE (mkPreloadPrep dso old) = true :=
  isPrefixOf_append_self preVar (dso ++ ':' :: old)

theorem isFdE_mkFd (fd : Int) : isFdE (mkFdE fd) = true :=
  isPrefixOf_append_self fdVar (intDec fd)

theorem isFdE_mkNew (dso : List Char) : isFdE (mkPreloadNew dso) = false :=
  preload_not_fd (isPreloadE_mkNew dso)

theorem isFdE_mkPrep (dso old : List Char) : isFdE (mkPreloadPrep dso old) = false :=
  preload_not_fd (isPreloadE_mkPrep dso old)

theorem isPreloadE_mkFd (fd : Int) : isPreloadE (mkFdE fd) = false :=
  fd_not_preload (isFdE_mkFd fd)

theorem valOfPre_mkNew (dso : List Char) : valOfPre (mkPreloadNew dso) = dso :=
  List.drop_left preVar dso

theorem valOfPre_mkPrep (dso old : List Char) :
    valOfPre (mkPreloadPrep dso old) = dso ++ ':' :: old :=
  List.drop_left preVar (dso ++ ':' :: old)

theorem valOfFd_mkFd (fd : Int) : valOfFd (mkFdE fd) = intDec fd :=
  List.drop_left fdVar (intDec fd)

theorem dsoFirst_self (dso : List Char) : dsoFirst dso dso = true := by
  unfold dsoFirst
  rw [show dso.isPrefixOf dso = true from
    List.isPrefixOf_iff_prefix.mpr (List.prefix_refl dso)]
  simp

theorem dsoFirst_prep (dso old : List Char) : dsoFirst dso (dso ++ ':' :: old) = true := by
  unfold dsoFirst
  rw [isPrefixOf_append_self]
  rw [List.get?_append_right (Nat.le_refl dso.length)]
  simp

/-! ## Preload builder: scan lemmas -/

theorem scanRef_pidx_frozen (dso : List Char) (fd : Int) :
    ∀ (l : List (List Char)) (st : ScanSt), st.pidx.isSome = true →
      (scanRef dso fd st l).pidx = st.pidx
      ∧ (scanRef dso fd st l).dsoP = st.dsoP
      ∧ ∃ s, (scanRef dso fd st l).out = st.out ++ s ∧ s.countP isPreloadE = 0
  | [], st, _ => ⟨rfl, rfl, [], by simp [scanRef], rfl⟩
  | e :: rest, st, h => by
    obtain ⟨i, hi⟩ := Option.isSome_iff_exists.mp h
    by_cases hp : isPreloadE e = true
    · rw [show scanRef dso fd st (e :: rest) = scanRef dso fd st rest from by
        simp [scanRef, hp, hi]]
      exact scanRef_pidx_frozen dso fd rest st h
    · by_cases hq : fd ≠ -1 ∧ isFdE e = true
      · cases hiq : st.iidx with
        | none =>
          rw [show scanRef dso fd st (e :: rest)
              = scanRef dso fd ⟨st.out ++ [e], st.pidx, some st.out.length,
                  st.dsoP, fdMatches fd (valOfFd e)⟩ rest from by
            simp [scanRef, hp, hq, hiq]]
          obtain ⟨h1, h2, s, hs, hcnt⟩ :=
            scanRef_pidx_frozen dso fd rest
              ⟨st.out ++ [e], st.pidx, some st.out.length, st.dsoP,
                fdMatches fd (valOfFd e)⟩ (by simpa using h)
          exact ⟨h1, h2, e :: s, by simpa using hs,
            by simp [List.countP_cons, hp, hcnt]⟩
        | some j =>
          rw [show scanRef dso fd st (e :: rest) = scanRef dso fd st rest from by
            simp [scanRef, hp, hq, hiq]]
          exact scanRef_pidx_frozen dso fd rest st h
      · rw [show scanRef dso fd st (e :: rest)
            = scanRef dso fd ⟨st.out ++ [e], st.pidx, st.iidx, st.dsoP, st.fdP⟩ rest from by
          simp [scanRef, hp, hq]]
        obtain ⟨h1, h2, s, hs, hcnt⟩ :=
          scanRef_pidx_frozen dso fd rest
            ⟨st.out ++ [e], st.pidx, st.iidx, st.dsoP, st.fdP⟩ (by simpa using h)
        exact ⟨h1, h2, e :: s, by simpa using hs,
          by simp [List.countP_cons, hp, hcnt]⟩

theorem scanRef_iidx_frozen (dso : List Char) (fd : Int) :
    ∀ (l : List (List Char)) (st : ScanSt), st.iidx.isSome = true →
      (scanRef dso fd st l).iidx = st.iidx
      ∧ (scanRef dso fd st l).fdP = st.fdP
      ∧ (fd ≠ -1 → ∃ s, (scanRef dso fd st l).out = st.out ++ s ∧ s.countP isFdE = 0)
  | [], st, _ => ⟨rfl, rfl, fun _ => ⟨[], by simp [scanRef], rfl⟩⟩
  | e :: rest, st, h => by
    obtain ⟨i, hi⟩ := Option.isSome_iff_exists.mp h
    by_cases hp : isPreloadE e = true
    · cases hpq : st.pidx with
      | none =>
        rw [show scanRef dso fd st (e :: rest)
            = scanRef dso fd ⟨st.out ++ [e], some st.out.length, st.iidx,
                dsoFirst dso (valOfPre e), st.fdP⟩ rest from by
          simp [scanRef, hp, hpq]]
        obtain ⟨h1, h2, h3⟩ :=
          scanRef_iidx_frozen dso fd rest
            ⟨st.out ++ [e], some st.out.length, st.iidx,
              dsoFirst dso (valOfPre e), st.fdP⟩ (by simpa using h)
        refine ⟨h1, h2, fun hfd => ?_⟩
        obtain ⟨s, hs, hcnt⟩ := h3 hfd
        exact ⟨e :: s, by simpa using hs,
          by simp [List.countP_cons, preload_not_fd hp, hcnt]⟩
      | some j =>
        rw [show scanRef dso fd st (e :: rest) = scanRef dso fd st rest from by
          simp [scanRef, hp, hpq]]
        exact scanRef_iidx_frozen dso fd rest st h
    · by_cases hq : fd ≠ -1 ∧ isFdE e = true
      · rw [show scanRef dso fd st (e :: rest) = scanRef dso fd st rest from by
          simp [scanRef, hp, hq, hi]]
        exact scanRef_iidx_frozen dso fd rest st h
      · rw [show scanRef dso fd st (e :: rest)
            = scanRef dso fd ⟨st.out ++ [e], st.pidx, st.iidx, st.dsoP, st.fdP⟩ rest from by
          simp [scanRef, hp, hq]]
        obtain ⟨h1, h2, h3⟩ :=
          scanRef_iidx_frozen dso fd rest
            ⟨st.out ++ [e], st.pidx, st.iidx, st.dsoP, st.fdP⟩ (by simpa using h)
        refine ⟨h1, h2, fun hfd => ?_⟩
        obtain ⟨s, hs, hcnt⟩ := h3 hfd
        have hef : isFdE e = false := by
          rcases Bool.eq_false_or_eq_true (isFdE e) with hh | hh
          · exact absurd ⟨hfd, hh⟩ hq
          · exact hh
        exact ⟨e :: s, by simpa using hs, by simp [List.countP_cons, hef, hcnt]⟩

theorem scanRef_fdneg (dso : List Char) (fd : Int) (hfd : fd = -1) :
    ∀ (l : List (List Char)) (st : ScanSt),
      (scanRef dso fd st l).iidx = st.iidx ∧ (scanRef dso fd st l).fdP = st.fdP
  | [], st => ⟨rfl, rfl⟩
  | e :: rest, st => by
    have hq : ¬ (fd ≠ -1 ∧ isFdE e = true) := by simp [hfd]
    by_cases hp : isPreloadE e = true
    · cases hpq : st.pidx with
      | none =>
        rw [show scanRef dso fd st (e :: rest)
            = scanRef dso fd ⟨st.out ++ [e], some st.out.length, st.iidx,
                dsoFirst dso (valOfPre e), st.fdP⟩ rest from by
          simp [scanRef, hp, hpq]]
        exact scanRef_fdneg dso fd hfd rest _
      | some j =>
        rw [show scanRef dso fd st (e :: rest) = scanRef dso fd st rest from by
          simp [scanRef, hp, hpq]]
        exact scanRef_fdneg dso fd hfd rest st
    · rw [show scanRef dso fd st (e :: rest)
          = scanRef dso fd ⟨st.out ++ [e], st.pidx, st.iidx, st.dsoP, st.fdP⟩ rest from by
        simp [scanRef, hp, hq]]
      exact scanRef_fdneg dso fd hfd rest _

theorem scanRef_preload_facts (dso : List Char) (fd : Int) :
    ∀ (l : List (List Char)) (st : ScanSt), st.pidx = none →
      st.out.countP isPreloadE = 0 →
      ((scanRef dso fd st l).pidx = none ↔ l.countP isPreloadE = 0)
      ∧ (scanRef dso fd st l).out.countP isPreloadE = min (l.countP isPreloadE) 1
      ∧ (scanRef dso fd st l).out.find? isPreloadE = l.find? isPreloadE
      ∧ (l.countP isPreloadE = 0 → (scanRef dso fd st l).dsoP = st.dsoP)
      ∧ (∀ e, l.find? isPreloadE = some e →
          (scanRef dso fd st l).dsoP = dsoFirst dso (valOfPre e))
      ∧ (∀ i, (scanRef dso fd st l).pidx = some i →
          (scanRef dso fd st l).out.get? i = l.find? isPreloadE)
  | [], st, hnone, hout => by
    refine ⟨by simp [scanRef, hnone], by simp [scanRef, hout],
      by simp [scanRef, countP_zero_iff_find?_none.mp hout],
      fun _ => by simp [scanRef], fun e he => by simp at he, fun i hi => ?_⟩
    rw [show (scanRef dso fd st []).pidx = st.pidx from rfl, hnone] at hi
    cases hi
  | e :: rest, st, hnone, hout => by
    by_cases hp : isPreloadE e = true
    · have hstep : scanRef dso fd st (e :: rest)
          = scanRef dso fd ⟨st.out ++ [e], some st.out.length, st.iidx,
              dsoFirst dso (valOfPre e), st.fdP⟩ rest := by
        simp [scanRef, hp, hnone]
      obtain ⟨h1, h2, s, hs, hscnt⟩ :=
        scanRef_pidx_frozen dso fd rest
          ⟨st.out ++ [e], some st.out.length, st.iidx,
            dsoFirst dso (valOfPre e), st.fdP⟩ rfl
      have hout2 : (scanRef dso fd st (e :: rest)).out = st.out ++ (e :: s) := by
        rw [hstep, hs]
        simp
      have hfnd : (e :: rest).find? isPreloadE = some e := List.find?_cons_of_pos _ hp
      have hcnt1 : (scanRef dso fd st (e :: rest)).out.countP isPreloadE = 1 := by
        rw [hout2, List.countP_append, hout, List.countP_cons, hscnt]
        simp [hp]
      refine ⟨?_, ?_, ?_, ?_, ?_, ?_⟩
      · rw [hstep, h1]
        simp [List.countP_cons, hp]
      · rw [hcnt1, List.countP_cons]
        simp [hp]
      · rw [hout2, hfnd, find?_clean_cons hout hp]
      · intro hz
        rw [List.countP_cons] at hz
        simp [hp] at hz
      · intro e' he'
        rw [hfnd] at he'
        injection he' with he'
        rw [hstep, h2, he']
      · intro i hi
        rw [hstep, h1] at hi
        injection hi with hi
        rw [hout2, hfnd, ← hi, List.get?_append_right (Nat.le_refl st.out.length)]
        simp
    · have hcntc : (e :: rest).countP isPreloadE = rest.countP isPreloadE := by
        simp [List.countP_cons, hp]
      have hfndc : (e :: rest).find? isPreloadE = rest.find? isPreloadE :=
        List.find?_cons_of_neg _ (by simp [hp])
      by_cases hq : (fd ≠ -1 ∧ isFdE e = true)
      · cases hiq : st.iidx with
        | none =>
          have hstep : scanRef dso fd st (e :: rest)
              = scanRef dso fd ⟨st.out ++ [e], st.pidx, some st.out.length,
                  st.dsoP, fdMatches fd (valOfFd e)⟩ rest := by
            simp [scanRef, hp, hq, hiq]
          rw [hstep, hcntc, hfndc]
          exact scanRef_preload_facts dso fd rest _ hnone
            (by rw [List.countP_append, hout]; simp [hp])
        | some j =>
          have hstep : scanRef dso fd st (e :: rest) = scanRef dso fd st rest := by
            simp [scanRef, hp, hq, hiq]
          rw [hstep, hcntc, hfndc]
          exact scanRef_preload_facts dso fd rest st hnone hout
      · have hstep : scanRef dso fd st (e :: rest)
            = scanRef dso fd ⟨st.out ++ [e], st.pidx, st.iidx, st.dsoP, st.fdP⟩ rest := by
          simp [scanRef, hp, hq]
        rw [hstep, hcntc, hfndc]
        exact scanRef_preload_facts dso fd rest _ hnone
          (by rw [List.countP_append, hout]; simp [hp])

theorem scanRef_fd_facts (dso : List Char) (fd : Int) (hfd : fd ≠ -1) :
    ∀ (l : List (List Char)) (st : ScanSt), st.iidx = none →
      st.out.countP isFdE = 0 →
      ((scanRef dso fd st l).iidx = none ↔ l.countP isFdE = 0)
      ∧ (scanRef dso fd st l).out.countP isFdE = min (l.countP isFdE) 1
      ∧ (scanRef dso fd st l).out.find? isFdE = l.find? isFdE
      ∧ (l.countP isFdE = 0 → (scanRef dso fd st l).fdP = st.fdP)
      ∧ (∀ e, l.find? isFdE = some e →
          (scanRef dso fd st l).fdP = fdMatches fd (valOfFd e))
      ∧ (∀ i, (scanRef dso fd st l).iidx = some i →
          (scanRef dso fd st l).out.get? i = l.find? isFdE)
  | [], st, hnone, hout => by
    refine ⟨by simp [scanRef, hnone], by simp [scanRef, hout],
      by simp [scanRef, countP_zero_iff_find?_none.mp hout],
      fun _ => by simp [scanRef], fun e he => by simp at he, fun i hi => ?_⟩
    rw [show (scanRef dso fd st []).iidx = st.iidx from rfl, hnone] at hi
    cases hi
  | e :: rest, st, hnone, hout => by
    by_cases hq : (fd ≠ -1 ∧ isFdE e = true)
    · have hp : isPreloadE e = false := fd_not_preload hq.2
      have hstep : scanRef dso fd st (e :: rest)
          = scanRef dso fd ⟨st.out ++ [e], st.pidx, some st.out.length,
              st.dsoP, fdMatches fd (valOfFd e)⟩ rest := by
        simp [scanRef, hp, hq, hnone]
      obtain ⟨h1, h2, h3⟩ :=
        scanRef_iidx_frozen dso fd rest
          ⟨st.out ++ [e], st.pidx, some st.out.length,
            st.dsoP, fdMatches fd (valOfFd e)⟩ rfl
      obtain ⟨s, hs, hscnt⟩ := h3 hfd
      have hout2 : (scanRef dso fd st (e :: rest)).out = st.out ++ (e :: s) := by
        rw [hstep, hs]
        simp
      have hfnd : (e :: rest).find? isFdE = some e := List.find?_cons_of_pos _ hq.2
      have hcnt1 : (scanRef dso fd st (e :: rest)).out.countP isFdE = 1 := by
        rw [hout2, List.countP_append, hout, List.countP_cons, hscnt]
        simp [hq.2]
      refine ⟨?_, ?_, ?_, ?_, ?_, ?_⟩
      · rw [hstep, h1]
        simp [List.countP_cons, hq.2]
      · rw [hcnt1, List.countP_cons]
        simp [hq.2]
      · rw [hout2, hfnd, find?_clean_cons hout hq.2]
      · intro hz
        rw [List.countP_cons] at hz
        simp [hq.2] at hz
      · intro e' he'
        rw [hfnd] at he'
        injection he' with he'
        rw [hstep, h2, he']
      · intro i hi
        rw [hstep, h1] at hi
        injection hi with hi
        rw [hout2, hfnd, ← hi, List.get?_append_right (Nat.le_refl st.out.length)]
        simp
    · have hf : isFdE e = false := by
        rcases Bool.eq_false_or_eq_true (isFdE e) with hh | hh
        · exact absurd ⟨hfd, hh⟩ hq
        · exact hh
      have hcntc : (e :: rest).countP isFdE = rest.countP isFdE := by
        simp [List.countP_cons, hf]
      have hfndc : (e :: rest).find? isFdE = rest.find? isFdE :=
        List.find?_cons_of_neg _ (by simp [hf])
      by_cases hp : isPreloadE e = true
      · cases hpq : st.pidx with
        | none =>
          have hstep : scanRef dso fd st (e :: rest)
              = scanRef dso fd ⟨st.out ++ [e], some st.out.length, st.iidx,
                  dsoFirst dso (valOfPre e), st.fdP⟩ rest := by
            simp [scanRef, hp, hpq]
          rw [hstep, hcntc, hfndc]
          exact scanRef_fd_facts dso fd hfd rest _ hnone
            (by rw [List.countP_append, hout]; simp [hf])
        | some j =>
          have hstep : scanRef dso fd st (e :: rest) = scanRef dso fd st rest := by
            simp [scanRef, hp, hpq]
          rw [hstep, hcntc, hfndc]
          exact scanRef_fd_facts dso fd hfd rest st hnone hout
      · have hstep : scanRef dso fd st (e :: rest)
            = scanRef dso fd ⟨st.out ++ [e], st.pidx, st.iidx, st.dsoP, st.fdP⟩ rest := by
          simp [scanRef, hp, hq]
        rw [hstep, hcntc, hfndc]
        exact scanRef_fd_facts dso fd hfd rest _ hnone
          (by rw [List.countP_append, hout]; simp [hf])

theorem scanRef_passthrough (dso : List Char) (fd : Int) :
    ∀ (l : List (List Char)) (st : ScanSt),
      (st.pidx.isSome = true → l.countP isPreloadE = 0) →
      (st.pidx = none → l.countP isPreloadE ≤ 1) →
      (fd ≠ -1 → (st.iidx.isSome = true → l.countP isFdE = 0)
        ∧ (st.iidx = none → l.countP isFdE ≤ 1)) →
      (scanRef dso fd st l).out = st.out ++ l
  | [], st, _, _, _ => by simp [scanRef]
  | e :: rest, st, hps, hpn, hi => by
    by_cases hp : isPreloadE e = true
    · cases hpq : st.pidx with
      | none =>
        have hstep : scanRef dso fd st (e :: rest)
            = scanRef dso fd ⟨st.out ++ [e], some st.out.length, st.iidx,
                dsoFirst dso (valOfPre e), st.fdP⟩ rest := by
          simp [scanRef, hp, hpq]
        have hr0 : rest.countP isPreloadE = 0 := by
          have := hpn hpq
          rw [List.countP_cons] at this
          simp only [hp, eq_self_iff_true, if_true] at this
          omega
        rw [hstep]
        rw [scanRef_passthrough dso fd rest _ (fun _ => hr0) (by intro hh; cases hh)
          (fun hfd => ⟨fun hh => by
              have := (hi hfd).1 hh
              rw [List.countP_cons] at this
              omega,
            fun hh => by
              have := (hi hfd).2 hh
              rw [List.countP_cons] at this
              omega⟩)]
        simp
      | some j =>
        exfalso
        have := hps (by rw [hpq]; rfl)
        rw [List.countP_cons] at this
        simp [hp] at this
    · by_cases hq : (fd ≠ -1 ∧ isFdE e = true)
      · cases hiq : st.iidx with
        | none =>
          have hstep : scanRef dso fd st (e :: rest)
              = scanRef dso fd ⟨st.out ++ [e], st.pidx, some st.out.length,
                  st.dsoP, fdMatches fd (valOfFd e)⟩ rest := by
            simp [scanRef, hp, hq, hiq]
          have hr0 : rest.countP isFdE = 0 := by
            have := (hi hq.1).2 hiq
            rw [List.countP_cons] at this
            simp only [hq.2, eq_self_iff_true, if_true] at this
            omega
          rw [hstep]
          rw [scanRef_passthrough dso fd rest _
            (fun hh => by
              have := hps hh
              rw [List.countP_cons] at this
              omega)
            (fun hh => by
              have := hpn hh
              rw [List.countP_cons] at this
              omega)
            (fun hfd => ⟨fun _ => hr0, fun hh => by cases hh⟩)]
          simp
        | some j =>
          exfalso
          have := (hi hq.1).1 (by rw [hiq]; rfl)
          rw [List.countP_cons] at this
          simp [hq.2] at this
      · have hstep : scanRef dso fd st (e :: rest)
            = scanRef dso fd ⟨st.out ++ [e], st.pidx, st.iidx, st.dsoP, st.fdP⟩ rest := by
          simp [scanRef, hp, hq]
        rw [hstep]
        rw [scanRef_passthrough dso fd rest _
          (fun hh => by
            have := hps hh
            rw [List.countP_cons] at this
            omega)
          (fun hh => by
            have := hpn hh
            rw [List.countP_cons] at this
            simp [hp] at this
            omega)
          (fun hfd => by
            have hf : isFdE e = false := by
              rcases Bool.eq_false_or_eq_true (isFdE e) with hh | hh
              · exact absurd ⟨hfd, hh⟩ hq
              · exact hh
            refine ⟨fun hh => ?_, fun hh => ?_⟩
            · have := (hi hfd).1 hh
              rw [List.countP_cons] at this
              omega
            · have := (hi hfd).2 hh
              rw [List.countP_cons] at this
              simp [hf] at this
              omega)]
        simp

theorem find?_append_left {p : α → Bool} :
    ∀ {l : List α} {v : α}, l.find? p = some v → ∀ r, (l ++ r).find? p = some v
  | [], v, h, _ => by simp at h
  | a :: l, v, h, r => by
    by_cases ha : p a = true
    · rw [List.find?_cons_of_pos _ ha] at h
      rw [List.cons_append, List.find?_cons_of_pos _ ha]
      exact h
    · rw [List.find?_cons_of_neg _ ha] at h
      rw [List.cons_append, List.find?_cons_of_neg _ ha]
      exact find?_append_left h r

theorem scanGo_eq_scanRef (dso : List Char) (fd : Int) :
    ∀ (l : List (List Char)) (st : ScanSt),
      (st.pidx.isSome = true → l.countP isPreloadE = 0) →
      (st.pidx = none → l.countP isPreloadE ≤ 1) →
      (fd ≠ -1 → (st.iidx.isSome = true → l.countP isFdE = 0)
        ∧ (st.iidx = none → l.countP isFdE ≤ 1)) →
      scanGo dso fd st l = (scanRef dso fd st l, (scanRef dso fd st l).out.length)
  | [], st, _, _, _ => by simp [scanGo, scanRef]
  | e :: rest, st, hps, hpn, hi => by
    by_cases hp : isPreloadE e = true
    · cases hpq : st.pidx with
      | none =>
        have hgo : scanGo dso fd st (e :: rest)
            = scanGo dso fd ⟨st.out ++ [e], some st.out.length, st.iidx,
                dsoFirst dso (valOfPre e), st.fdP⟩ rest := by
          cases rest <;> simp [scanGo, hp, hpq]
        have href : scanRef dso fd st (e :: rest)
            = scanRef dso fd ⟨st.out ++ [e], some st.out.length, st.iidx,
                dsoFirst dso (valOfPre e), st.fdP⟩ rest := by
          simp [scanRef, hp, hpq]
        have hr0 : rest.countP isPreloadE = 0 := by
          have := hpn hpq
          rw [List.countP_cons] at this
          simp only [hp, eq_self_iff_true, if_true] at this
          omega
        rw [hgo, href]
        exact scanGo_eq_scanRef dso fd rest _ (fun _ => hr0) (by intro hh; cases hh)
          (fun hfd => ⟨fun hh => by
              have := (hi hfd).1 hh
              rw [List.countP_cons] at this
              omega,
            fun hh => by
              have := (hi hfd).2 hh
              rw [List.countP_cons] at this
              omega⟩)
      | some j =>
        exfalso
        have := hps (by rw [hpq]; rfl)
        rw [List.countP_cons] at this
        simp [hp] at this
    · by_cases hq : (fd ≠ -1 ∧ isFdE e = true)
      · cases hiq : st.iidx with
        | none =>
          have hgo : scanGo dso fd st (e :: rest)
              = scanGo dso fd ⟨st.out ++ [e], st.pidx, some st.out.length,
                  st.dsoP, fdMatches fd (valOfFd e)⟩ rest := by
            cases rest <;> simp [scanGo, hp, hq, hiq]
          have href : scanRef dso fd st (e :: rest)
              = scanRef dso fd ⟨st.out ++ [e], st.pidx, some st.out.length,
                  st.dsoP, fdMatches fd (valOfFd e)⟩ rest := by
            simp [scanRef, hp, hq, hiq]
          have hr0 : rest.countP isFdE = 0 := by
            have := (hi hq.1).2 hiq
            rw [List.countP_cons] at this
            simp only [hq.2, eq_self_iff_true, if_true] at this
            omega
          rw [hgo, href]
          exact scanGo_eq_scanRef dso fd rest _
            (fun hh => by
              have := hps hh
              rw [List.countP_cons] at this
              omega)
            (fun hh => by
              have := hpn hh
              rw [List.countP_cons] at this
              omega)
            (fun hfd => ⟨fun _ => hr0, fun hh => by cases hh⟩)
        | some j =>
          exfalso
          have := (hi hq.1).1 (by rw [hiq]; rfl)
          rw [List.countP_cons] at this
          simp [hq.2] at this
      · have hgo : scanGo dso fd st (e :: rest)
            = scanGo dso fd ⟨st.out ++ [e], st.pidx, st.iidx, st.dsoP, st.fdP⟩ rest := by
          cases rest <;> simp [scanGo, hp, hq]
        have href : scanRef dso fd st (e :: rest)
            = scanRef dso fd ⟨st.out ++ [e], st.pidx, st.iidx, st.dsoP, st.fdP⟩ rest := by
          simp [scanRef, hp, hq]
        rw [hgo, href]
        exact scanGo_eq_scanRef dso fd rest _
          (fun hh => by
            have := hps hh
            rw [List.countP_cons] at this
            omega)
          (fun hh => by
            have := hpn hh
            rw [List.countP_cons] at this
            simp [hp] at this
            omega)
          (fun hfd => by
            have hf : isFdE e = false := by
              rcases Bool.eq_false_or_eq_true (isFdE e) with hh | hh
              · exact absurd ⟨hfd, hh⟩ hq
              · exact hh
            refine ⟨fun hh => ?_, fun hh => ?_⟩
            · have := (hi hfd).1 hh
              rw [List.countP_cons] at this
              omega
            · have := (hi hfd).2 hh
              rw [List.countP_cons] at this
              simp [hf] at this
              omega)

theorem visEnv_map_some : ∀ (l : List (List Char)), visEnv (l.map some) = l
  | [] => rfl
  | a :: l => by
    have ih := visEnv_map_some l
    simp only [visEnv, List.map_cons, List.takeWhile_cons, Option.isSome_some,
      if_true, List.filterMap_cons] at ih ⊢
    simpa using ih

theorem map_some_set : ∀ (l : List (List Char)) (i : Nat) (x : List Char),
    (l.map some).set i (some x) = (l.set i x).map some
  | [], _, _ => rfl
  | _ :: _, 0, _ => rfl
  | a :: l, i + 1, x => by
    show some a :: (l.map some).set i (some x) = some a :: (l.set i x).map some
    rw [map_some_set l i x]

theorem map_some_get (l : List (List Char)) (i : Nat) :
    (((l.map some).get? i).getD none).getD [] = (l.get? i).getD [] := by
  rw [List.get?_map]
  cases l.get? i <;> rfl

theorem preApplyB_map_some (st : ScanSt) (dso : List Char) :
    preApplyB st dso (st.out.map some) = (preApply st dso).map some := by
  unfold preApplyB preApply
  by_cases hd : st.dsoP = true
  · simp only [if_pos hd]
  · simp only [if_neg hd]
    cases hpq : st.pidx with
    | none => simp
    | some i =>
      show (st.out.map some).set i
          (some (mkPreloadPrep dso (valOfPre ((((st.out.map some).get? i).getD none).getD []))))
        = (st.out.set i (mkPreloadPrep dso (valOfPre ((st.out.get? i).getD [])))).map some
      rw [map_some_get]
      exact map_some_set st.out i _

theorem fdApplyB_map_some (st : ScanSt) (fd : Int) (arr : List (List Char)) :
    fdApplyB st fd (arr.map some) = (fdApply st fd arr).map some := by
  unfold fdApplyB fdApply
  by_cases hg : fd ≠ -1 ∧ st.fdP = false
  · simp only [if_pos hg]
    cases st.iidx with
    | some j => exact map_some_set arr j (mkFdE fd)
    | none => simp
  · simp only [if_neg hg]

theorem take_length_map_some (l : List (List Char)) :
    (l.map some ++ [none]).take l.length = l.map some := by
  rw [show l.length = (l.map some).length from (List.length_map l some).symm]
  exact List.take_left _ _

theorem fdStage_ret (copied : Bool) (orig : List (List Char)) (st : ScanSt)
    (body : List (Option (List Char))) (allocd : List AllocTag) (fd : Int) :
    (fdStage true copied orig st body allocd fd).ret
      = some (visEnv (fdApplyB st fd body)) := by
  unfold fdStage fdApplyB
  by_cases hg : fd ≠ -1 ∧ st.fdP = false
  · simp only [if_pos hg]
    rw [if_neg (by decide)]
    cases st.iidx <;> rfl
  · simp only [if_neg hg]
    rfl

theorem preloadStage_ret (copied : Bool) (st : ScanSt)
    (body : List (Option (List Char))) (dso : List Char) (fd : Int) :
    (preloadStage true true copied st body dso fd).ret
      = some (visEnv (fdApplyB st fd (preApplyB st dso body))) := by
  unfold preloadStage preApplyB
  by_cases hd : st.dsoP = true
  · simp only [if_pos hd]
    exact fdStage_ret copied st.out st body _ fd
  · simp only [if_neg hd]
    cases hpq : st.pidx with
    | none =>
      rw [if_neg (by decide)]
      exact fdStage_ret copied st.out st _ _ fd
    | some i =>
      rw [if_neg (by decide)]
      exact fdStage_ret copied st.out st _ _ fd

theorem sudo_preload_ret_nodup (envp : List (List Char)) (dso : List Char) (fd : Int)
    (hP : envp.countP isPreloadE ≤ 1) (hF : fd ≠ -1 → envp.countP isFdE ≤ 1) :
    (sudo_preload_dso true true true envp dso fd).ret
      = some (fdApply (scanRef dso fd ⟨[], none, none, false, false⟩ envp) fd
          (preApply (scanRef dso fd ⟨[], none, none, false, false⟩ envp) dso)) := by
  have hbr := scanGo_eq_scanRef dso fd envp ⟨[], none, none, false, false⟩
    (fun h => by cases h) (fun _ => hP)
    (fun hfd => And.intro (fun h => by cases h) (fun _ => hF hfd))
  unfold sudo_preload_dso
  rw [hbr]
  dsimp only
  set st := scanRef dso fd ⟨[], none, none, false, false⟩ envp with hst
  by_cases hnc : (st.pidx.isNone || st.iidx.isNone) = true
  · rw [if_pos hnc, if_neg (by decide), take_length_map_some]
    rw [preloadStage_ret, preApplyB_map_some, fdApplyB_map_some, visEnv_map_some]
  · rw [if_neg hnc]
    rw [preloadStage_ret, preApplyB_map_some, fdApplyB_map_some, visEnv_map_some]

theorem preload_build_char (envp : List (List Char)) (dso : List Char) (fd : Int)
    (out : List (List Char))
    (hP : envp.countP isPreloadE ≤ 1) (hF : fd ≠ -1 → envp.countP isFdE ≤ 1)
    (h : (sudo_preload_dso true true true envp dso fd).ret = some out) :
    out.countP isPreloadE = 1
    ∧ out.find? isPreloadE = some (preOut envp dso)
    ∧ (fd ≠ -1 → out.countP isFdE = 1 ∧ out.find? isFdE = some (fdOut envp fd)) := by
  rw [sudo_preload_ret_nodup envp dso fd hP hF] at h
  injection h with h
  obtain ⟨hiffP, hcntP, hfndP, hdzP, hdeP, hgetP⟩ :=
    scanRef_preload_facts dso fd envp ⟨[], none, none, false, false⟩ rfl (by simp)
  set st1 := scanRef dso fd ⟨[], none, none, false, false⟩ envp with hst1
  subst h
  -- Phase A: the array after the preload stage.
  have hA : (preApply st1 dso).countP isPreloadE = 1
      ∧ (preApply st1 dso).find? isPreloadE = some (preOut envp dso)
      ∧ (preApply st1 dso).countP isFdE = st1.out.countP isFdE
      ∧ (preApply st1 dso).find? isFdE = st1.out.find? isFdE
      ∧ (∀ j v, st1.out.get? j = some v → isFdE v = true →
          (preApply st1 dso).get? j = some v) := by
    by_cases hd : st1.dsoP = true
    · have hap : preApply st1 dso = st1.out := by
        unfold preApply
        rw [if_pos hd]
      cases hfe : envp.find? isPreloadE with
      | none =>
        exfalso
        have hc0 : envp.countP isPreloadE = 0 := countP_zero_iff_find?_none.mpr hfe
        have := hdzP hc0
        rw [hd] at this
        cases this
      | some e1 =>
        have hcne : envp.countP isPreloadE ≠ 0 := by
          intro hz
          rw [countP_zero_iff_find?_none] at hz
          rw [hz] at hfe
          cases hfe
        have hpre : preOut envp dso = e1 := by
          unfold preOut
          rw [hfe]
          show (if dsoFirst dso (valOfPre e1) = true then e1
            else mkPreloadPrep dso (valOfPre e1)) = e1
          rw [if_pos (by rw [← hdeP e1 hfe]; exact hd)]
        rw [hap, hpre]
        exact ⟨by rw [hcntP]; omega, by rw [hfndP, hfe], rfl, rfl,
          fun j v hj _ => hj⟩
    · cases hpq : st1.pidx with
      | none =>
        have hc0 : envp.countP isPreloadE = 0 := (hiffP).mp hpq
        have hfe : envp.find? isPreloadE = none := countP_zero_iff_find?_none.mp hc0
        have hclean : st1.out.countP isPreloadE = 0 := by
          rw [hcntP, hc0]
          decide
        have hap : preApply st1 dso = st1.out ++ [mkPreloadNew dso] := by
          unfold preApply
          rw [if_neg hd, hpq]
        have hpre : preOut envp dso = mkPreloadNew dso := by
          unfold preOut
          rw [hfe]
        refine ⟨?_, ?_, ?_, ?_, ?_⟩
        · rw [hap, List.countP_append, hclean, List.countP_cons]
          simp [isPreloadE_mkNew dso]
        · rw [hap, hpre]
          exact find?_clean_cons hclean (isPreloadE_mkNew dso) []
        · rw [hap, List.countP_append, List.countP_cons]
          simp [isFdE_mkNew dso]
        · rw [hap]
          cases hff : st1.out.find? isFdE with
          | some v => exact find?_append_left hff _
          | none =>
            rw [find?_append_of_clean (countP_zero_iff_find?_none.mpr hff),
              List.find?_cons_of_neg _ (by simp [isFdE_mkNew dso])]
            rfl
        · intro j v hj _
          rw [hap, List.get?_append (List.get?_eq_some.mp hj).1]
          exact hj
      | some i =>
        have hcne : envp.countP isPreloadE ≠ 0 := by
          intro hz
          rw [← hiffP] at hz
          rw [hpq] at hz
          cases hz
        obtain ⟨e1, hfe⟩ : ∃ e1, envp.find? isPreloadE = some e1 := by
          cases hfe : envp.find? isPreloadE with
          | none => exact absurd (countP_zero_iff_find?_none.mpr hfe) hcne
          | some e1 => exact ⟨e1, rfl⟩
        have hpe1 : isPreloadE e1 = true := List.find?_some hfe
        have hget1 : st1.out.get? i = some e1 := by rw [hgetP i hpq, hfe]
        have hdso1 : dsoFirst dso (valOfPre e1) = false := by
          have := hdeP e1 hfe
          cases hdd : dsoFirst dso (valOfPre e1) with
          | false => rfl
          | true => exact absurd (this.trans hdd) hd
        have hcnt1 : st1.out.countP isPreloadE = 1 := by
          rw [hcntP]
          omega
        have hap : preApply st1 dso
            = st1.out.set i (mkPreloadPrep dso (valOfPre e1)) := by
          unfold preApply
          rw [if_neg hd, hpq]
          show st1.out.set i (mkPreloadPrep dso (valOfPre ((st1.out.get? i).getD []))) = _
          rw [hget1]
          rfl
        have hpre : preOut envp dso = mkPreloadPrep dso (valOfPre e1) := by
          unfold preOut
          rw [hfe]
          show (if dsoFirst dso (valOfPre e1) = true then e1
            else mkPreloadPrep dso (valOfPre e1)) = mkPreloadPrep dso (valOfPre e1)
          rw [if_neg (by rw [hdso1]; decide)]
        obtain ⟨hdec, _⟩ := get?_some_decomp hget1
        have hset := set_of_get?_some hget1 (mkPreloadPrep dso (valOfPre e1))
        have hTD : (st1.out.take i).countP isPreloadE = 0
            ∧ (st1.out.drop (i + 1)).countP isPreloadE = 0 := by
          have := hcnt1
          rw [hdec, List.countP_append, List.countP_cons] at this
          simp only [hpe1, eq_self_iff_true, if_true] at this
          constructor <;> omega
        refine ⟨?_, ?_, ?_, ?_, ?_⟩
        · rw [hap, hset, List.countP_append, List.countP_cons, hTD.1, hTD.2]
          simp [isPreloadE_mkPrep]
        · rw [hap, hset, hpre]
          exact find?_clean_cons hTD.1 (isPreloadE_mkPrep dso (valOfPre e1)) _
        · rw [hap, hset]
          conv_rhs => rw [hdec]
          rw [List.countP_append, List.countP_append, List.countP_cons, List.countP_cons]
          rw [isFdE_mkPrep, preload_not_fd hpe1]
        · rw [hap, hset]
          conv_rhs => rw [hdec]
          exact (find?_mid_congr (st1.out.take i) (isFdE_mkPrep dso (valOfPre e1))
            (preload_not_fd hpe1) (st1.out.drop (i + 1)))
        · intro j v hj hv
          have hne : i ≠ j := by
            intro heq
            rw [← heq, hget1] at hj
            injection hj with hj
            rw [← hj, preload_not_fd hpe1] at hv
            cases hv
          rw [hap, List.get?_set_ne _ _ hne]
          exact hj
  obtain ⟨hA1, hA2, hA3, hA4, hA5⟩ := hA
  -- Phase B: the side-channel stage.
  by_cases hfd : fd = -1
  · have hB : fdApply st1 fd (preApply st1 dso) = preApply st1 dso := by
      unfold fdApply
      rw [if_neg (by simp [hfd])]
    rw [hB]
    exact ⟨hA1, hA2, fun hne => absurd hfd hne⟩
  · obtain ⟨hiffF, hcntF, hfndF, hdzF, hdeF, hgetF⟩ :=
      scanRef_fd_facts dso fd hfd envp ⟨[], none, none, false, false⟩ rfl (by simp)
    by_cases hfp : st1.fdP = false
    · cases hii : st1.iidx with
      | none =>
        have hc0 : envp.countP isFdE = 0 := (hiffF).mp hii
        have hfe : envp.find? isFdE = none := countP_zero_iff_find?_none.mp hc0
        have hcleanA : (preApply st1 dso).countP isFdE = 0 := by
          rw [hA3, hcntF, hc0]
          decide
        have hB : fdApply st1 fd (preApply st1 dso)
            = preApply st1 dso ++ [mkFdE fd] := by
          unfold fdApply
          rw [if_pos ⟨hfd, hfp⟩, hii]
        have hfo : fdOut envp fd = mkFdE fd := by
          unfold fdOut
          rw [hfe]
        refine ⟨?_, ?_, fun _ => ⟨?_, ?_⟩⟩
        · rw [hB, List.countP_append, hA1, List.countP_cons]
          simp [isPreloadE_mkFd]
        · rw [hB]
          exact find?_append_left hA2 _
        · rw [hB, List.countP_append, hcleanA, List.countP_cons]
          simp [isFdE_mkFd]
        · rw [hB, hfo]
          exact find?_clean_cons hcleanA (isFdE_mkFd fd) []
      | some j =>
        have hcne : envp.countP isFdE ≠ 0 := by
          intro hz
          rw [← hiffF] at hz
          rw [hii] at hz
          cases hz
        obtain ⟨f1, hfe⟩ : ∃ f1, envp.find? isFdE = some f1 := by
          cases hfe : envp.find? isFdE with
          | none => exact absurd (countP_zero_iff_find?_none.mpr hfe) hcne
          | some f1 => exact ⟨f1, rfl⟩
        have hff1 : isFdE f1 = true := List.find?_some hfe
        have hgetj : st1.out.get? j = some f1 := by rw [hgetF j hii, hfe]
        have hmm : fdMatches fd (valOfFd f1) = false := by
          have := hdeF f1 hfe
          cases hdd : fdMatches fd (valOfFd f1) with
          | false => rfl
          | true => exact absurd (this.trans hdd) (by rw [hfp]; decide)
        have hfo : fdOut envp fd = mkFdE fd := by
          unfold fdOut
          rw [hfe]
          show (if fdMatches fd (valOfFd f1) = true then f1 else mkFdE fd) = mkFdE fd
          rw [if_neg (by rw [hmm]; decide)]
        have hgetjA : (preApply st1 dso).get? j = some f1 := hA5 j f1 hgetj hff1
        have hcntA : (preApply st1 dso).countP isFdE = 1 := by
          rw [hA3, hcntF]
          omega
        have hB : fdApply st1 fd (preApply st1 dso)
            = (preApply st1 dso).set j (mkFdE fd) := by
          unfold fdApply
          rw [if_pos ⟨hfd, hfp⟩, hii]
        obtain ⟨hdec2, _⟩ := get?_some_decomp hgetjA
        have hset2 := set_of_get?_some hgetjA (mkFdE fd)
        have hTD2 : ((preApply st1 dso).take j).countP isFdE = 0
            ∧ ((preApply st1 dso).drop (j + 1)).countP isFdE = 0 := by
          have := hcntA
          rw [hdec2, List.countP_append, List.countP_cons] at this
          simp only [hff1, eq_self_iff_true, if_true] at this
          constructor <;> omega
        refine ⟨?_, ?_, fun _ => ⟨?_, ?_⟩⟩
        · rw [hB, hset2]
          have := hA1
          rw [hdec2, List.countP_append, List.countP_cons] at this
          rw [List.countP_append, List.countP_cons]
          rw [fd_not_preload hff1] at this
          rw [isPreloadE_mkFd]
          simp only [Bool.false_eq_true, if_false] at this ⊢
          omega
        · rw [hB, hset2]
          have := hA2
          conv_lhs at this => rw [hdec2]
          rw [← find?_mid_congr ((preApply st1 dso).take j) (fd_not_preload hff1)
            (isPreloadE_mkFd fd) ((preApply st1 dso).drop (j + 1))]
          exact this
        · rw [hB, hset2, List.countP_append, List.countP_cons, hTD2.1, hTD2.2]
          simp [isFdE_mkFd]
        · rw [hB, hset2, hfo]
          exact find?_clean_cons hTD2.1 (isFdE_mkFd fd) _
    · have hft : st1.fdP = true := by
        cases hdd : st1.fdP with
        | false => exact absurd hdd hfp
        | true => rfl
      have hcne : envp.countP isFdE ≠ 0 := by
        intro hz
        have := hdzF hz
        rw [hft] at this
        cases this
      obtain ⟨f1, hfe⟩ : ∃ f1, envp.find? isFdE = some f1 := by
        cases hfe : envp.find? isFdE with
        | none => exact absurd (countP_zero_iff_find?_none.mpr hfe) hcne
        | some f1 => exact ⟨f1, rfl⟩
      have hfo : fdOut envp fd = f1 := by
        unfold fdOut
        rw [hfe]
        show (if fdMatches fd (valOfFd f1) = true then f1 else mkFdE fd) = f1
        rw [if_pos ((hdeF f1 hfe).symm.trans hft)]
      have hB : fdApply st1 fd (preApply st1 dso) = preApply st1 dso := by
        unfold fdApply
        rw [if_neg (by rw [hft]; simp)]
      rw [hB]
      refine ⟨hA1, hA2, fun _ => ⟨?_, ?_⟩⟩
      · rw [hA3, hcntF]
        omega
      · rw [hA4, hfndF, hfe, hfo]

theorem preload_build_fix (l : List (List Char)) (dso : List Char) (fd : Int)
    (hp1 : l.countP isPreloadE = 1)
    (hpe : ∀ e, l.find? isPreloadE = some e → dsoFirst dso (valOfPre e) = true)
    (hfdc : fd ≠ -1 → l.countP isFdE = 1
      ∧ ∀ f, l.find? isFdE = some f →
          (fdMatches fd (valOfFd f) = true ∨ f = mkFdE fd)) :
    (sudo_preload_dso true true true l dso fd).ret = some l := by
  rw [sudo_preload_ret_nodup l dso fd (le_of_eq hp1)
    (fun hne => le_of_eq (hfdc hne).1)]
  obtain ⟨hiffP, hcntP, hfndP, hdzP, hdeP, hgetP⟩ :=
    scanRef_preload_facts dso fd l ⟨[], none, none, false, false⟩ rfl (by simp)
  set st2 := scanRef dso fd ⟨[], none, none, false, false⟩ l with hst2
  have hout2 : st2.out = l := by
    have := scanRef_passthrough dso fd l ⟨[], none, none, false, false⟩
      (fun h => by cases h) (fun _ => by omega)
      (fun hne => And.intro (fun h => absurd h (by decide)) (fun _ => le_of_eq (hfdc hne).1))
    rw [← hst2] at this
    simpa using this
  obtain ⟨e1, hfe⟩ : ∃ e1, l.find? isPreloadE = some e1 := by
    cases hfe : l.find? isPreloadE with
    | none =>
      exfalso
      rw [← countP_zero_iff_find?_none, hp1] at hfe
      cases hfe
    | some e1 => exact ⟨e1, rfl⟩
  have hdso2 : st2.dsoP = true := by
    rw [hdeP e1 hfe]
    exact hpe e1 hfe
  have hap : preApply st2 dso = l := by
    unfold preApply
    rw [if_pos hdso2, hout2]
  rw [hap]
  by_cases hfd : fd = -1
  · rw [show fdApply st2 fd l = l from by unfold fdApply; rw [if_neg (by simp [hfd])]]
  · obtain ⟨hiffF, hcntF, hfndF, hdzF, hdeF, hgetF⟩ :=
      scanRef_fd_facts dso fd hfd l ⟨[], none, none, false, false⟩ rfl (by simp)
    rw [← hst2] at hiffF hcntF hfndF hdzF hdeF hgetF
    obtain ⟨hcf, hdisj⟩ := hfdc hfd
    obtain ⟨f1, hff⟩ : ∃ f1, l.find? isFdE = some f1 := by
      cases hff : l.find? isFdE with
      | none =>
        exfalso
        rw [← countP_zero_iff_find?_none, hcf] at hff
        cases hff
      | some f1 => exact ⟨f1, rfl⟩
    obtain ⟨j, hjj⟩ : ∃ j, st2.iidx = some j := by
      cases hjj : st2.iidx with
      | none =>
        exfalso
        have := (hiffF).mp hjj
        omega
      | some j => exact ⟨j, rfl⟩
    have hgj : l.get? j = some f1 := by
      have := hgetF j hjj
      rw [hout2, hff] at this
      exact this
    by_cases hm : fdMatches fd (valOfFd f1) = true
    · have hfp2 : st2.fdP = true := by rw [hdeF f1 hff, hm]
      rw [show fdApply st2 fd l = l from by
        unfold fdApply
        rw [if_neg (by rw [hfp2]; simp)]]
    · have hf1 : f1 = mkFdE fd := by
        rcases hdisj f1 hff with hh | hh
        · exact absurd hh hm
        · exact hh
      have hfp2 : st2.fdP = false := by
        rw [hdeF f1 hff]
        cases hdd : fdMatches fd (valOfFd f1) with
        | false => rfl
        | true => exact absurd hdd hm
      rw [show fdApply st2 fd l = l.set j (mkFdE fd) from by
        unfold fdApply
        rw [if_pos ⟨hfd, hfp2⟩, hjj]]
      rw [← hf1]
      exact congrArg some (set_same_of_get?_some hgj)

/-- C2: evaluation at the failing input — with two `LD_PRELOAD` entries in the
caller's array and the `nenvp` allocation failing, the call reports failure yet
the caller's array has already been compacted in place: the duplicate entry is
gone, contradicting the claim that the caller's environment is left unmodified
and still valid on failure.  (All partial allocations were freed: none had been
made yet.) -/
theorem sudo_preload_mutates_caller_on_failure :
    (sudo_preload_dso false true true
        [preVar ++ ['/', 'a'], preVar ++ ['/', 'b'], ['X', '=', '1']] ['/', 'l'] 3)
      = { ret := none, callerArr := [preVar ++ ['/', 'a'], ['X', '=', '1']],
          allocated := [], freed := [] }
    ∧ [preVar ++ ['/', 'a'], ['X', '=', '1']]
        ≠ [preVar ++ ['/', 'a'], preVar ++ ['/', 'b'], ['X', '=', '1']] := by
  decide

/-- C3: the claim is right and the code is wrong.  The counting loop's
`continue` after the in-place shift (lines 94-101, 116-123) moves `env_len`
past the entry shifted into the removed slot, against the removal's own stated
purpose (the "Remove duplicate LD_PRELOAD" comment, line 95).  Two
consequences, both at odds with the promised collapse into a single rewritten
entry: with three adjacent preload entries the skipped third survives, so the
returned environment holds two `LD_PRELOAD` entries; and when the removed
duplicate was the last entry, `env_len` overcounts, the `memcpy` of line 146
copies an embedded NULL, and the appended `SUDO_INTERCEPT_FD` entry lands
after it — the returned environment then holds no fd entry at all. -/
theorem sudo_preload_dup_skip_bug :
    ((sudo_preload_dso true true true
        [preVar ++ ['/', 'a'], preVar ++ ['/', 'b'], preVar ++ ['/', 'c']]
        ['/', 'l'] 5).ret
      = some [mkPreloadPrep ['/', 'l'] ['/', 'a'], preVar ++ ['/', 'c'], mkFdE 5])
    ∧ List.countP isPreloadE
        [mkPreloadPrep ['/', 'l'] ['/', 'a'], preVar ++ ['/', 'c'], mkFdE 5] = 2
    ∧ ((sudo_preload_dso true true true
        [preVar ++ ['/', 'a'], preVar ++ ['/', 'b']] ['/', 'l'] 5).ret
      = some [mkPreloadPrep ['/', 'l'] ['/', 'a']])
    ∧ List.countP isFdE [mkPreloadPrep ['/', 'l'] ['/', 'a']] = 0 := by
  decide

/-- C8 (counterexample): idempotence fails on an input whose duplicate preload
entry is in final position.  The first call's scan removes the trailing
duplicate but exits with `env_len` overcounted, so the appended
`SUDO_INTERCEPT_FD` entry lands past an embedded NULL and the returned
environment shows no fd entry; running the builder on that output appends a
now-visible fd entry — the second result is not observably equivalent to the
first. -/
theorem sudo_preload_dso_idempotent_counterexample :
    ((sudo_preload_dso true true true
        [preVar ++ ['/', 'a'], preVar ++ ['/', 'b']] ['/', 'l'] 5).ret
      = some [mkPreloadPrep ['/', 'l'] ['/', 'a']])
    ∧ ((sudo_preload_dso true true true
        [mkPreloadPrep ['/', 'l'] ['/', 'a']] ['/', 'l'] 5).ret
      = some [mkPreloadPrep ['/', 'l'] ['/', 'a'], mkFdE 5])
    ∧ ([mkPreloadPrep ['/', 'l'] ['/', 'a']] : List (List Char))
        ≠ [mkPreloadPrep ['/', 'l'] ['/', 'a'], mkFdE 5] := by
  decide

/-- C8 (amended): idempotence of the builder on base environments carrying at
most one preload entry and, when a descriptor is supplied, at most one
`SUDO_INTERCEPT_FD` entry — there the scan removes nothing and `env_len` is
exact, and feeding a successful output back in with the same `dso_file` and
`intercept_fd` returns that output exactly: the single preload entry (with the
dso first in its value) is recognized and kept, the side-channel entry is
recognized or rewritten to the identical string, and no entry is duplicated or
reordered.  With duplicate managed entries idempotence can fail (see the
counterexample). -/
theorem sudo_preload_dso_idempotent (envp : List (List Char)) (dso : List Char)
    (fd : Int) (out1 : List (List Char))
    (hP : envp.countP isPreloadE ≤ 1) (hF : fd ≠ -1 → envp.countP isFdE ≤ 1)
    (h1 : (sudo_preload_dso true true true envp dso fd).ret = some out1) :
    (sudo_preload_dso true true true out1 dso fd).ret = some out1 := by
  obtain ⟨hc1, hc2, hc3⟩ := preload_build_char envp dso fd out1 hP hF h1
  apply preload_build_fix out1 dso fd hc1
  · intro e he
    rw [hc2] at he
    injection he with he
    subst he
    unfold preOut
    cases hfe : envp.find? isPreloadE with
    | none =>
      show dsoFirst dso (valOfPre (mkPreloadNew dso)) = true
      rw [valOfPre_mkNew]
      exact dsoFirst_self dso
    | some e1 =>
      show dsoFirst dso (valOfPre (if dsoFirst dso (valOfPre e1) = true then e1
        else mkPreloadPrep dso (valOfPre e1))) = true
      by_cases hdd : dsoFirst dso (valOfPre e1) = true
      · rw [if_pos hdd]
        exact hdd
      · rw [if_neg hdd, valOfPre_mkPrep]
        exact dsoFirst_prep dso (valOfPre e1)
  · intro hne
    obtain ⟨hf1, hf2⟩ := hc3 hne
    refine ⟨hf1, fun f hf => ?_⟩
    rw [hf2] at hf
    injection hf with hf
    subst hf
    unfold fdOut
    cases hfe : envp.find? isFdE with
    | none => exact Or.inr rfl
    | some f1 =>
      show fdMatches fd (valOfFd (if fdMatches fd (valOfFd f1) = true then f1
          else mkFdE fd)) = true
        ∨ (if fdMatches fd (valOfFd f1) = true then f1 else mkFdE fd) = mkFdE fd
      by_cases hm : fdMatches fd (valOfFd f1) = true
      · rw [if_pos hm]
        exact Or.inl hm
      · rw [if_neg hm]
        exact Or.inr rfl

/-- C8 witness: a concrete double application on a duplicate-free base. -/
theorem sudo_preload_dso_idempotent_witness :
    (sudo_preload_dso true true true [mkPreloadNew ['/', 'l'], mkFdE 3] ['/', 'l'] 3).ret
      = some [mkPreloadNew ['/', 'l'], mkFdE 3] :=
  sudo_preload_dso_idempotent [] ['/', 'l'] 3 [mkPreloadNew ['/', 'l'], mkFdE 3]
    (by decide) (fun _ => by decide) (by decide)

end SudoIntercept
